import Mathlib

/-!
Verification of the dynamic path detection engine of the kubescape storage
repository (package `dynamicpathdetector`): the path-trie analyzer
(`addPathToRoot`, `AnalyzePath`), the argument analyzer (`AddArgs`,
`AnalyzeArgs`, `AnalyzeExecs`), and the drivers `AnalyzeOpens` and
`AnalyzeEndpoints`.  Go maps are embedded as association lists in first
insertion order; Go pointer structures are embedded as pure values (the source
only moves subtree pointers out of structures it discards, so no observable
sharing arises); Go string splitting and joining are embedded over character
lists.
-/

namespace DynamicPathDetector

/-- `DynamicIdentifier` is the single-segment dynamic marker U+22EF. -/
def DynamicIdentifier : String := "⋯"

/-- `WildcardIdentifier` is the multi-segment wildcard marker. -/
def WildcardIdentifier : String := "*"

/-! ### Go string splitting and joining on `/` -/

/-- Split a character list on `'/'`; mirrors `strings.Split(s, "/")`,
so the result is always non-empty and keeps empty components. -/
def splitChars : List Char → List (List Char)
  | [] => [[]]
  | c :: cs =>
    if c = '/' then [] :: splitChars cs
    else
      match splitChars cs with
      | [] => [[c]]
      | g :: gs => (c :: g) :: gs

/-- Join character-list groups with `'/'`; mirrors `strings.Join(l, "/")`. -/
def joinChars : List (List Char) → List Char
  | [] => []
  | [g] => g
  | g :: gs => g ++ '/' :: joinChars gs

/-- `strings.Split(s, "/")` on strings. -/
def splitAll (s : String) : List String :=
  (splitChars s.data).map (fun cs => ⟨cs⟩)

/-- `splitPath` of the source: split on `/` and drop empty components
(`strings.Split(strings.Trim(path, "/"), "/")` with the empty components
filtered; trimming the slashes only turns boundary components empty, so the
two phrasings agree). -/
def splitPath (p : String) : List String :=
  (splitAll p).filter (fun s => s ≠ "")

/-- `strings.Join(l, "/")` on strings. -/
def joinSegs (l : List String) : String :=
  ⟨joinChars (l.map String.data)⟩

/-! ### Trie nodes and collapse configuration -/

/-- `CollapseConfig` of the source; `pfx` embeds the `Prefix` field. -/
structure CollapseConfig where
  pfx : String
  threshold : Nat
deriving Repr, DecidableEq

/-- `TrieNode` of the source: traversal count, optional collapse
configuration, and children keyed by segment (association list in first
insertion order, embedding the Go map). -/
inductive TrieNode where
  | mk (count : Nat) (cfg : Option CollapseConfig) (children : List (String × TrieNode))

def TrieNode.count : TrieNode → Nat
  | .mk c _ _ => c

def TrieNode.cfg : TrieNode → Option CollapseConfig
  | .mk _ f _ => f

def TrieNode.children : TrieNode → List (String × TrieNode)
  | .mk _ _ ch => ch

def TrieNode.withCount (n : TrieNode) (c : Nat) : TrieNode :=
  .mk c n.cfg n.children

def TrieNode.withChildren (n : TrieNode) (ch : List (String × TrieNode)) : TrieNode :=
  .mk n.count n.cfg ch

def TrieNode.withCfg (n : TrieNode) (f : Option CollapseConfig) : TrieNode :=
  .mk n.count f n.children

/-- `NewTrieNode()` of the source. -/
def NewTrieNode : TrieNode := .mk 0 none []

/-- Lookup in a children map (`node.Children[k]`). -/
def lookupChild (k : String) : List (String × TrieNode) → Option TrieNode
  | [] => none
  | (k2, v) :: rest => if k2 = k then some v else lookupChild k rest

/-- Update in a children map (`node.Children[k] = v`): replace in place when
the key exists, append otherwise (first insertion order). -/
def setChild (k : String) (v : TrieNode) : List (String × TrieNode) → List (String × TrieNode)
  | [] => [(k, v)]
  | (k2, v2) :: rest => if k2 = k then (k, v) :: rest else (k2, v2) :: setChild k v rest

/-- Sum of the children's counts, as read by `createWildcardNode`. -/
def sumCounts (kids : List (String × TrieNode)) : Nat :=
  kids.foldl (fun acc kv => acc + kv.2.count) 0

mutual
/-- `shallowChildrenCopy(src, dst)` of the source: copy missing keys as they
are; on a key collision add the counts and recurse into both subtrees. -/
def shallowChildrenCopy : TrieNode → TrieNode → TrieNode
  | .mk _ _ srcKids, dst => copyChildren srcKids dst

/-- The loop body of `shallowChildrenCopy`, folding the source children into
the destination node. -/
def copyChildren : List (String × TrieNode) → TrieNode → TrieNode
  | [], dst => dst
  | (k, sc) :: rest, dst =>
    match lookupChild k dst.children with
    | none => copyChildren rest (dst.withChildren (setChild k sc dst.children))
    | some dc =>
        copyChildren rest
          (dst.withChildren (setChild k (shallowChildrenCopy sc (dc.withCount (dc.count + sc.count))) dst.children))
end

/-- The merge loop shared by `createDynamicNode` and the literal-`⋯` branch of
`addPathToRoot`: fold every child into a fresh node, adding its count and
union-merging its subtree. -/
def mergeAllChildren (kids : List (String × TrieNode)) : TrieNode :=
  kids.foldl (fun acc kv => shallowChildrenCopy kv.2 (acc.withCount (acc.count + kv.2.count))) NewTrieNode

/-- `createDynamicNode(node)` of the source: replace all children with a
single `⋯` child holding their union-merge. -/
def createDynamicNode (node : TrieNode) : TrieNode :=
  node.withChildren [(DynamicIdentifier, mergeAllChildren node.children)]

/-- `createWildcardNode(node)` of the source: replace all children with a
single `*` child whose count is the sum of the former children's counts. -/
def createWildcardNode (node : TrieNode) : TrieNode :=
  node.withChildren [(WildcardIdentifier, .mk (sumCounts node.children) none [])]

/-! ### PathAnalyzer -/

/-- `PathAnalyzer` of the source: `root` is the configuration trie (written
only at construction), `identRoots` the per-identifier observation tries. -/
structure PathAnalyzer where
  root : TrieNode
  identRoots : List (String × TrieNode)
  configs : List CollapseConfig
  defaultCfg : CollapseConfig

/-- The per-prefix `CollapseConfigs` list of the source. -/
def CollapseConfigs : List CollapseConfig :=
  [⟨"/etc", 50⟩, ⟨"/opt", 5⟩, ⟨"/var/run", 3⟩, ⟨"/app", 1⟩]

/-- `DefaultCollapseConfig` of the source. -/
def DefaultCollapseConfig : CollapseConfig := ⟨"/", 5⟩

/-- `addConfigToNode(root, config)` of the source: an all-slash prefix sets
the root's config, otherwise the prefix segments are walked (creating nodes)
and the config is stored at the leaf. -/
def insertConfigPath (node : TrieNode) : List String → CollapseConfig → TrieNode
  | [], c => node.withCfg (some c)
  | s :: rest, c =>
    let child := (lookupChild s node.children).getD NewTrieNode
    node.withChildren (setChild s (insertConfigPath child rest c) node.children)

def addConfigToNode (root : TrieNode) (config : CollapseConfig) : TrieNode :=
  match splitPath config.pfx with
  | [] => root.withCfg (some config)
  | segs => insertConfigPath root segs config

/-- `newAnalyzer(defaultCfg, configs)` of the source. -/
def newAnalyzer (defaultCfg : CollapseConfig) (configs : List CollapseConfig) : PathAnalyzer :=
  { root := configs.foldl addConfigToNode (addConfigToNode NewTrieNode defaultCfg)
    identRoots := []
    configs := configs
    defaultCfg := defaultCfg }

/-- `NewPathAnalyzer(threshold)` of the source. -/
def NewPathAnalyzer (threshold : Nat) : PathAnalyzer :=
  newAnalyzer ⟨"/", threshold⟩ CollapseConfigs

/-- `NewPathAnalyzerWithConfigs(configs)` of the source. -/
def NewPathAnalyzerWithConfigs (configs : List CollapseConfig) : PathAnalyzer :=
  newAnalyzer DefaultCollapseConfig configs

/-- The configuration advance done after each navigation step of
`addPathToRoot`: move to the matching child of the configuration trie when one
exists (staying put otherwise) and adopt its config when it carries one. -/
def cfgStep (cfgNode : TrieNode) (cfg : CollapseConfig) (s : String) :
    TrieNode × CollapseConfig :=
  match lookupChild s cfgNode.children with
  | some nxt => (nxt, nxt.cfg.getD cfg)
  | none => (cfgNode, cfg)

/-- The per-segment loop of `addPathToRoot(root, path)` of the source, over
the segment list `splitPath path` (the source splits the path itself; the
caller passes the split here).  `cfgNode`/`cfg` carry the configuration walk. -/
def addPathToRoot (cfgNode : TrieNode) (cfg : CollapseConfig) (node : TrieNode) :
    List String → TrieNode
  | [] => node
  | s :: rest =>
    match lookupChild WildcardIdentifier node.children with
    | some wc =>
        -- a wildcard child consumes the rest of the path
        node.withChildren (setChild WildcardIdentifier (wc.withCount (wc.count + 1)) node.children)
    | none =>
      match lookupChild DynamicIdentifier node.children with
      | some dn =>
          -- a dynamic child absorbs this segment
          let next := cfgStep cfgNode cfg s
          node.withChildren
            (setChild DynamicIdentifier
              (addPathToRoot next.1 next.2 (dn.withCount (dn.count + 1)) rest) node.children)
      | none =>
        if s = DynamicIdentifier then
          -- literal ⋯ in the input: merge all children under a new ⋯ child
          let dn := mergeAllChildren node.children
          let next := cfgStep cfgNode cfg s
          node.withChildren
            [(DynamicIdentifier, addPathToRoot next.1 next.2 (dn.withCount (dn.count + 1)) rest)]
        else
          let child0 := (lookupChild s node.children).getD NewTrieNode
          let kids1 := setChild s (child0.withCount (child0.count + 1)) node.children
          if cfg.threshold = 1 ∧ (lookupChild WildcardIdentifier kids1).isNone then
            -- immediate wildcard: threshold 1 replaces all children with *
            let wNode := createWildcardNode (node.withChildren kids1)
            match lookupChild WildcardIdentifier wNode.children with
            | some wc =>
                wNode.withChildren
                  (setChild WildcardIdentifier (wc.withCount (wc.count + 1)) wNode.children)
            | none => wNode
          else
            let kids2 :=
              if kids1.length > cfg.threshold ∧ (lookupChild DynamicIdentifier kids1).isNone then
                ((node.withChildren kids1) |> createDynamicNode).children
              else kids1
            let next := cfgStep cfgNode cfg s
            match lookupChild DynamicIdentifier kids2 with
            | some dn =>
                node.withChildren (setChild DynamicIdentifier (addPathToRoot next.1 next.2 dn rest) kids2)
            | none =>
              match lookupChild s kids2 with
              | some c =>
                  node.withChildren (setChild s (addPathToRoot next.1 next.2 c rest) kids2)
              | none => node.withChildren kids2

/-- The read loop of `AnalyzePath`: emit the generalized segments from the
current trie state without mutating it.  A `*` child absorbs the rest, a `⋯`
child is preferred over a literal match, an unobserved literal is emitted
without descending. -/
def readSegs (node : TrieNode) : List String → List String
  | [] => []
  | s :: rest =>
    match lookupChild WildcardIdentifier node.children with
    | some _ => [WildcardIdentifier]
    | none =>
      match lookupChild DynamicIdentifier node.children with
      | some dn => DynamicIdentifier :: readSegs dn rest
      | none =>
        match lookupChild s node.children with
        | some c => s :: readSegs c rest
        | none => s :: readSegs node rest

/-- The scan of `CollapseAdjacentDynamicIdentifiers`, written as a one-pass
automaton over the segments: in the skipping state (entered after emitting a
`*` for a run of `⋯`) the remaining consecutive `⋯` segments are consumed;
otherwise a `⋯` followed by another `⋯` emits a single `*` and enters the
skipping state, and any other segment is emitted unchanged.  This is the
source's loop with its inner run-skipping expressed as the boolean state. -/
def collapseAux : Bool → List String → List String
  | _, [] => []
  | true, s :: rest =>
    if s = DynamicIdentifier then collapseAux true rest
    else s :: collapseAux false rest
  | false, s :: rest =>
    if s = DynamicIdentifier ∧ rest.head? = some DynamicIdentifier then
      WildcardIdentifier :: collapseAux true rest
    else s :: collapseAux false rest

/-- A run of two or more consecutive `⋯` segments becomes a single `*`; an
isolated `⋯` is kept; static segments in between prevent collapsing. -/
def collapseAdjacentSegs (l : List String) : List String :=
  collapseAux false l

/-- `CollapseAdjacentDynamicIdentifiers(p)` of the source. -/
def CollapseAdjacentDynamicIdentifiers (p : String) : String :=
  joinSegs (collapseAdjacentSegs (splitAll p))

/-- The body of `AnalyzePath(path, identifier)` over the split segment list.
The source first trims slashes and returns `"/"` when nothing remains (which
is exactly the `segs = []` case, and the later `len(segments) == 0` check is
then unreachable); otherwise it fetches (creating if absent) the identifier's
observation root, reads the generalized segments, then inserts the path, and
finally collapses adjacent dynamic markers in the joined result. -/
def analyzePathSegs (pa : PathAnalyzer) (segs : List String) (ident : String) :
    String × PathAnalyzer :=
  if segs = [] then ("/", pa)
  else
    let root := (lookupChild ident pa.identRoots).getD NewTrieNode
    let out := readSegs root segs
    let cfg0 := pa.root.cfg.getD pa.defaultCfg
    let root' := addPathToRoot pa.root cfg0 root segs
    (CollapseAdjacentDynamicIdentifiers (joinSegs ("" :: out)),
     { pa with identRoots := setChild ident root' pa.identRoots })

/-- `AnalyzePath(path, identifier)` of the source (the always-`nil` error
return is omitted). -/
def AnalyzePath (pa : PathAnalyzer) (path ident : String) : String × PathAnalyzer :=
  analyzePathSegs pa (splitPath path) ident

/-- The observation root currently stored for an identifier (an empty root
when none is stored yet, matching `getRoot`). -/
def identRootOf (pa : PathAnalyzer) (ident : String) : TrieNode :=
  (lookupChild ident pa.identRoots).getD NewTrieNode

/-! ### Sorting and set helpers

`slices.SortedFunc(maps.Values(m), strings.Compare)` and
`mapset.Sorted(mapset.NewThreadUnsafeSet(xs...))` of the Go side: string
comparison is byte-wise over UTF-8, which orders exactly like code points, so
it is embedded as lexicographic comparison of the character lists. -/

/-- Byte-order string comparison (`strings.Compare(a, b) < 0`), as
lexicographic comparison of code points. -/
def charListLt : List Char → List Char → Bool
  | [], [] => false
  | [], _ :: _ => true
  | _ :: _, [] => false
  | a :: as, b :: bs =>
    if a.val < b.val then true
    else if b.val < a.val then false
    else charListLt as bs

def strLt (a b : String) : Bool := charListLt a.data b.data

/-- Stable insertion sort by a boolean strict order. -/
def insertSorted (lt : α → α → Bool) (x : α) : List α → List α
  | [] => [x]
  | y :: rest => if lt x y then x :: y :: rest else y :: insertSorted lt x rest

def sortBy (lt : α → α → Bool) : List α → List α
  | [] => []
  | x :: rest => insertSorted lt x (sortBy lt rest)

/-- `mapset.Sorted(mapset.NewThreadUnsafeSet(xs...))`: deduplicate (set
semantics) and sort. -/
def sortedSet (xs : List String) : List String :=
  sortBy strLt (xs.foldl (fun acc x => if x ∈ acc then acc else acc ++ [x]) [])

/-! ### ArgAnalyzer and AnalyzeExecs -/

/-- `ArgNode` of the source: children keyed by literal argument. -/
inductive ArgNode where
  | mk (children : List (String × ArgNode))

def ArgNode.children : ArgNode → List (String × ArgNode)
  | .mk ch => ch

def lookupArg (k : String) : List (String × ArgNode) → Option ArgNode
  | [] => none
  | (k2, v) :: rest => if k2 = k then some v else lookupArg k rest

def setArg (k : String) (v : ArgNode) : List (String × ArgNode) → List (String × ArgNode)
  | [] => [(k, v)]
  | (k2, v2) :: rest => if k2 = k then (k, v) :: rest else (k2, v2) :: setArg k v rest

/-- `ArgAnalyzer` of the source: one trie root per executable path. -/
structure ArgAnalyzer where
  roots : List (String × ArgNode)
  threshold : Nat

/-- `NewArgAnalyzer(threshold)` of the source. -/
def NewArgAnalyzer (threshold : Nat) : ArgAnalyzer := ⟨[], threshold⟩

/-- The insertion walk of `AddArgs`. -/
def addArgsLoop (node : ArgNode) : List String → ArgNode
  | [] => node
  | arg :: rest =>
    let child := (lookupArg arg node.children).getD (.mk [])
    .mk (setArg arg (addArgsLoop child rest) node.children)

/-- `AddArgs(args, execPath)` of the source: empty vectors are ignored, the
per-path root is created when absent. -/
def AddArgs (a : ArgAnalyzer) (args : List String) (execPath : String) : ArgAnalyzer :=
  if args = [] then a
  else
    let root := (lookupArg execPath a.roots).getD (.mk [])
    { a with roots := setArg execPath (addArgsLoop root args) a.roots }

/-- The read walk of `AnalyzeArgs`: `none` embeds the `node == nil` state (a
freshly created Go `ArgNode` always has a non-nil children map, so the
`node.Children == nil` disjunct coincides with `node == nil`). -/
def analyzeArgsLoop (threshold : Nat) : Option ArgNode → List String → List String
  | _, [] => []
  | none, arg :: rest => arg :: analyzeArgsLoop threshold none rest
  | some node, arg :: rest =>
    if node.children.length > threshold then
      DynamicIdentifier ::
        analyzeArgsLoop threshold
          (match lookupArg DynamicIdentifier node.children with
           | some dyn => some dyn
           | none => lookupArg arg node.children) rest
    else
      arg :: analyzeArgsLoop threshold (lookupArg arg node.children) rest

/-- `AnalyzeArgs(args, execPath)` of the source. -/
def AnalyzeArgs (a : ArgAnalyzer) (args : List String) (execPath : String) : List String :=
  if args = [] then args
  else
    match lookupArg execPath a.roots with
    | none => args
    | some root => analyzeArgsLoop a.threshold (some root) args

/-- `ExecCalls` of the softwarecomposition types package. -/
structure ExecCalls where
  path : String
  args : List String
  envs : List String
  parentPath : String
deriving DecidableEq, Repr

/-- Modelled from the spec: the `ExecCalls.String()` method of the
softwarecomposition types package (not under the sources given here) builds a
stable string representation concatenating Path, Args, Envs and ParentPath;
it is used only as a deduplication and sorting key. -/
def ExecCalls.repr (e : ExecCalls) : String :=
  String.intercalate ";" ([e.path] ++ e.args ++ e.envs ++ [e.parentPath])

/-- `AnalyzeExecs(execs, threshold)` of the source: nil in, nil out; build
the tries; read back collapsed vectors; deduplicate by the string
representation keeping the first occurrence; sort by that representation. -/
def AnalyzeExecs (execs : Option (List ExecCalls)) (threshold : Nat) :
    Option (List ExecCalls) :=
  match execs with
  | none => none
  | some execs =>
    let analyzer := execs.foldl (fun a e => AddArgs a e.args e.path) (NewArgAnalyzer threshold)
    let dedup := execs.foldl
      (fun (acc : List (String × ExecCalls)) e =>
        let collapsed : ExecCalls :=
          { path := e.path
            args := AnalyzeArgs analyzer e.args e.path
            envs := e.envs
            parentPath := e.parentPath }
        let key := collapsed.repr
        if (acc.lookup key).isSome then acc else acc ++ [(key, collapsed)]) []
    some (sortBy (fun a b => strLt a.repr b.repr) (dedup.map Prod.snd))

/-! ### OpenCalls and AnalyzeOpens -/

/-- `OpenCalls` of the softwarecomposition types package. -/
structure OpenCalls where
  path : String
  flags : List String
deriving DecidableEq, Repr

/-- `AnalyzeOpen(path, analyzer)` of the source (`AnalyzePath` under the
`"opens"` identifier; its error is always nil and is omitted). -/
def AnalyzeOpen (pa : PathAnalyzer) (path : String) : String × PathAnalyzer :=
  AnalyzePath pa path "opens"

def lookupOpen (k : String) : List (String × OpenCalls) → Option OpenCalls
  | [] => none
  | (k2, v) :: rest => if k2 = k then some v else lookupOpen k rest

def setOpen (k : String) (v : OpenCalls) : List (String × OpenCalls) → List (String × OpenCalls)
  | [] => [(k, v)]
  | (k2, v2) :: rest => if k2 = k then (k, v) :: rest else (k2, v2) :: setOpen k v rest

/-- Pass 1 of `AnalyzeOpens`: prime the analyzer with every path, discarding
the results. -/
def primeOpens (pa : PathAnalyzer) (opens : List OpenCalls) : PathAnalyzer :=
  opens.foldl (fun s o => (AnalyzeOpen s o.path).snd) pa

/-- Pass 2 of `AnalyzeOpens` (the `dynamicOpens` loop): SBOM paths are kept
unchanged, other paths are generalized and merged by generalized path (flags
merged as a sorted set). -/
def analyzeOpensPass2 (sbom : List String) :
    PathAnalyzer → List OpenCalls → List (String × OpenCalls) →
    List (String × OpenCalls) × PathAnalyzer
  | pa, [], acc => (acc, pa)
  | pa, o :: rest, acc =>
    if o.path ∈ sbom then
      analyzeOpensPass2 sbom pa rest (setOpen o.path o acc)
    else
      let r := AnalyzeOpen pa o.path
      if r.fst ≠ o.path then
        match lookupOpen r.fst acc with
        | some existing =>
            analyzeOpensPass2 sbom r.snd rest
              (setOpen r.fst { existing with flags := sortedSet (existing.flags ++ o.flags) } acc)
        | none =>
            analyzeOpensPass2 sbom r.snd rest (setOpen r.fst ⟨r.fst, o.flags⟩ acc)
      else
        analyzeOpensPass2 sbom r.snd rest (setOpen o.path o acc)

/-- Pass 3 of `AnalyzeOpens` (the `finalOpens` consolidation loop): re-analyze
every accumulated entry against the now fully primed analyzer and merge
entries that collapse to the same path. -/
def analyzeOpensPass3 :
    PathAnalyzer → List (String × OpenCalls) → List (String × OpenCalls) →
    List (String × OpenCalls) × PathAnalyzer
  | pa, [], acc => (acc, pa)
  | pa, (_, o) :: rest, acc =>
    let r := AnalyzeOpen pa o.path
    match lookupOpen r.fst acc with
    | some existing =>
        analyzeOpensPass3 r.snd rest
          (setOpen r.fst { existing with flags := sortedSet (existing.flags ++ o.flags) } acc)
    | none =>
        analyzeOpensPass3 r.snd rest (setOpen r.fst ⟨r.fst, o.flags⟩ acc)

/-- `AnalyzeOpens(opens, analyzer, sbomSet)` of the source: nil opens give
nil with no error, a nil sbomSet is an error, otherwise prime, generalize and
consolidate, and return the entries sorted by path.  `Option` embeds Go nil
for the opens list and the sbom set. -/
def AnalyzeOpens (opens : Option (List OpenCalls)) (pa : PathAnalyzer)
    (sbomSet : Option (List String)) : Except String (Option (List OpenCalls)) :=
  match opens with
  | none => .ok none
  | some opens =>
    match sbomSet with
    | none => .error "sbomSet is nil"
    | some sbom =>
      let pa1 := primeOpens pa opens
      let p2 := analyzeOpensPass2 sbom pa1 opens []
      let p3 := analyzeOpensPass3 p2.snd p2.fst []
      .ok (some (sortBy (fun a b => strLt a.path b.path) (p3.fst.map Prod.snd)))

/-! ### HTTPEndpoint and AnalyzeEndpoints -/

/-- Modelled from the spec: the `Headers` field of `HTTPEndpoint` is a
serialized JSON object mapping header names to lists of strings; the
serialized bytes either parse back to the object they encode or fail to parse
(garbage bytes).  `obj` is a well-formed serialization, `garbage` any blob
that `json.Unmarshal` rejects. -/
inductive HeadersBlob where
  | garbage : HeadersBlob
  | obj : List (String × List String) → HeadersBlob
deriving DecidableEq, Repr

/-- Modelled from the spec: `HTTPEndpoint.GetHeaders()` of the
softwarecomposition types package unmarshals the headers blob, failing on
garbage. -/
def getHeadersOf : HeadersBlob → Except String (List (String × List String))
  | .garbage => .error "invalid headers"
  | .obj m => .ok m

/-- `HTTPEndpoint` of the softwarecomposition types package. -/
structure HTTPEndpoint where
  endpoint : String
  methods : List String
  internal : Bool
  direction : String
  headers : HeadersBlob
deriving DecidableEq, Repr

/-- Modelled from the spec: `MergeStrings` of the softwarecomposition types
package takes the sorted set union of two method lists. -/
def MergeStrings (a b : List String) : List String :=
  sortedSet (a ++ b)

def lookupHeader (k : String) : List (String × List String) → Option (List String)
  | [] => none
  | (k2, v) :: rest => if k2 = k then some v else lookupHeader k rest

def setHeader (k : String) (v : List String) :
    List (String × List String) → List (String × List String)
  | [] => [(k, v)]
  | (k2, v2) :: rest => if k2 = k then (k, v) :: rest else (k2, v2) :: setHeader k v rest

/-- `mergeHeaders(existing, new)` of the source: parse both header blobs
(returning silently when either fails), union the value lists key by key
(`mapset` union; the Go slice order of a set is unspecified, embedded as the
sorted set), re-serialize into `existing.Headers`.  The result pair is the
final value of both pointed-to records: the source writes only
`existing.Headers`, so the second component is returned unchanged. -/
def mergeHeaders (existing «new» : HTTPEndpoint) : HTTPEndpoint × HTTPEndpoint :=
  match getHeadersOf existing.headers with
  | .error _ => (existing, «new»)
  | .ok existingHeaders =>
    match getHeadersOf «new».headers with
    | .error _ => (existing, «new»)
    | .ok newHeaders =>
      let merged := newHeaders.foldl
        (fun acc kv =>
          match lookupHeader kv.1 acc with
          | some v => setHeader kv.1 (sortedSet (v ++ kv.2)) acc
          | none => setHeader kv.1 kv.2 acc)
        existingHeaders
      ({ existing with headers := .obj merged }, «new»)

/-- `isWildcardPort(port)` of the source. -/
def isWildcardPort (port : String) : Bool := port = "0"

/-- Split the characters at the first `'/'`, keeping the slash with the
remainder (`strings.Index` based split). -/
def breakAtSlash : List Char → Option (List Char × List Char)
  | [] => none
  | c :: cs =>
    if c = '/' then some ([], c :: cs)
    else
      match breakAtSlash cs with
      | none => none
      | some (a, b) => some (c :: a, b)

/-- `splitEndpointPortAndPath(endpoint)` of the source: strip one leading
`":"`, then split at the first `/`; without a slash the path is `"/"`. -/
def splitEndpointPortAndPath (e : String) : String × String :=
  let cs := match e.data with
    | ':' :: rest => rest
    | l => l
  match breakAtSlash cs with
  | none => (⟨cs⟩, "/")
  | some (a, b) => (⟨a⟩, ⟨b⟩)

/-- `rewritePort(endpoint, wildcardPort)` of the source. -/
def rewritePort (endpoint wildcardPort : String) : String :=
  if wildcardPort = "" then endpoint
  else
    let pp := splitEndpointPortAndPath endpoint
    if ¬ isWildcardPort pp.1 then ":" ++ wildcardPort ++ pp.2
    else endpoint

/-- `AnalyzeURL(urlString, analyzer)` of the source.  The source prepends
`"http://"` and parses with `net/url`; endpoint strings produced by the
processors have the shape `":<port><path>"`, for which that parse yields the
digits after the colon as the port and the remainder as the path, embedded
here by direct splitting (anything else is rejected, as
`url.ParseRequestURI` rejects the malformed endpoints exercised by the
tests).  The path is generalized under the port as identifier and `"/."`
(the `path.Clean` artifact) is normalized back to `"/"`. -/
def AnalyzeURL (pa : PathAnalyzer) (urlString : String) :
    Except String (String × PathAnalyzer) :=
  match urlString.data with
  | ':' :: rest =>
    let split := breakAtSlash rest
    let portCs := (split.map Prod.fst).getD rest
    let pathStr : String := (split.map (fun pr => (⟨pr.2⟩ : String))).getD ""
    if portCs.all Char.isDigit then
      let port : String := ⟨portCs⟩
      let r := AnalyzePath pa pathStr port
      let p := if r.fst = "/." then "/" else r.fst
      .ok (":" ++ port ++ p, r.snd)
    else .error "invalid URL"
  | _ => .error "invalid URL"

/-- `getEndpointKey(endpoint)` of the source. -/
def getEndpointKey (e : HTTPEndpoint) : String :=
  e.endpoint ++ "|" ++ e.direction

/-- Merge the incoming endpoint into an existing accumulated one, as done at
a key collision: union the methods, merge the headers. -/
def mergeIntoExisting (existing incoming : HTTPEndpoint) : HTTPEndpoint :=
  let e2 := { existing with methods := MergeStrings existing.methods incoming.methods }
  (mergeHeaders e2 incoming).fst

/-- Update the first list entry whose endpoint key matches. -/
def updateWhereKey (key : String) (f : HTTPEndpoint → HTTPEndpoint) :
    List HTTPEndpoint → List HTTPEndpoint
  | [] => []
  | e :: rest =>
    if getEndpointKey e = key then f e :: rest
    else e :: updateWhereKey key f rest

/-- `ProcessEndpoint(endpoint, analyzer, newEndpoints)` of the source: if the
generalized endpoint differs, either merge into the accumulated endpoint with
the same key (returning no new endpoint) or return a fresh endpoint carrying
the first observation's internal flag, direction and headers; an unchanged
endpoint is returned as is. -/
def ProcessEndpoint (pa : PathAnalyzer) (endpoint : HTTPEndpoint)
    (newEndpoints : List HTTPEndpoint) :
    Except String (Option HTTPEndpoint × List HTTPEndpoint × PathAnalyzer) :=
  match AnalyzeURL pa endpoint.endpoint with
  | .error e => .error e
  | .ok r =>
    if r.fst ≠ endpoint.endpoint then
      let ep' := { endpoint with endpoint := r.fst }
      if (newEndpoints.find? (fun e => getEndpointKey e = getEndpointKey ep')).isSome then
        .ok (none, updateWhereKey (getEndpointKey ep') (fun e => mergeIntoExisting e ep') newEndpoints, r.snd)
      else
        .ok (some ep', newEndpoints, r.snd)
    else
      .ok (some endpoint, newEndpoints, r.snd)

/-- `MergeDuplicateEndpoints(endpoints)` of the source: deduplicate by
`(endpoint, direction)` key, letting an existing wildcard-port (`:0`) entry
with the same path and direction absorb a specific-port entry. -/
def MergeDuplicateEndpoints (endpoints : List HTTPEndpoint) : List HTTPEndpoint :=
  endpoints.foldl
    (fun acc ep =>
      let key := getEndpointKey ep
      if (acc.find? (fun e => getEndpointKey e = key)).isSome then
        updateWhereKey key (fun e => mergeIntoExisting e ep) acc
      else
        let pp := splitEndpointPortAndPath ep.endpoint
        let wildcardKey := ":0" ++ pp.2 ++ "|" ++ ep.direction
        if ¬ isWildcardPort pp.1 ∧
            ((acc.find? (fun e => getEndpointKey e = wildcardKey)).isSome : Bool) then
          updateWhereKey wildcardKey (fun e => mergeIntoExisting e ep) acc
        else acc ++ [ep])
    []

/-- `AnalyzeEndpoints(endpoints, analyzer)` of the source: detect the
wildcard port, rewrite every endpoint onto it, prime the analyzer, process
each endpoint, then merge the duplicates. -/
def AnalyzeEndpoints (endpoints : List HTTPEndpoint) (pa : PathAnalyzer) :
    List HTTPEndpoint :=
  if endpoints = [] then []
  else
    let wildcardPort :=
      if endpoints.any (fun ep => isWildcardPort (splitEndpointPortAndPath ep.endpoint).1)
      then "0" else ""
    let pa1 := endpoints.foldl
      (fun s ep =>
        match AnalyzeURL s (rewritePort ep.endpoint wildcardPort) with
        | .ok r => r.snd
        | .error _ => s) pa
    let processed := endpoints.foldl
      (fun (st : List HTTPEndpoint × PathAnalyzer) ep =>
        let ep' := { ep with endpoint := rewritePort ep.endpoint wildcardPort }
        match ProcessEndpoint st.2 ep' st.1 with
        | .error _ => st
        | .ok (none, acc', pa') => (acc', pa')
        | .ok (some e, acc', pa') => (acc' ++ [e], pa'))
      ([], pa1)
    MergeDuplicateEndpoints processed.1

/-! ### Structural checkers used by the theorems -/

mutual
/-- Marker-sibling exclusivity at every node: a `*` child is an only child
(this entails that no literal child coexists with a `*` child). -/
def wildcardExclusive : TrieNode → Bool
  | .mk _ _ kids =>
    ((lookupChild WildcardIdentifier kids).isNone || kids.length == 1) &&
      wildcardExclusiveKids kids

def wildcardExclusiveKids : List (String × TrieNode) → Bool
  | [] => true
  | (_, c) :: rest => wildcardExclusive c && wildcardExclusiveKids rest
end

/-- A well-formed path segment: non-empty and free of `/`. -/
def validSeg (s : String) : Bool :=
  s ≠ "" && s.data.all (fun c => c ≠ '/')

/-- A literal segment: well formed and neither marker. -/
def isLit (s : String) : Bool :=
  validSeg s && s ≠ DynamicIdentifier && s ≠ WildcardIdentifier

/-- No two consecutive segments are both `⋯` (every `AnalyzePath` output
satisfies this after the adjacent-dynamic collapse). -/
def noAdjacentDyn : List String → Bool
  | [] => true
  | [_] => true
  | s :: t :: rest =>
    !(s == DynamicIdentifier && t == DynamicIdentifier) && noAdjacentDyn (t :: rest)

/-- The `*` marker appears at most as the final segment. -/
def starOnlyLast : List String → Bool
  | [] => true
  | [_] => true
  | s :: rest => s ≠ WildcardIdentifier && starOnlyLast rest

/-- The configuration trie built by `NewPathAnalyzer N`: the default config
at the root, the per-prefix configs of `CollapseConfigs` at their leaves. -/
def cfgTrieRoot (N : Nat) : TrieNode :=
  .mk 0 (some ⟨"/", N⟩)
    [("etc", .mk 0 (some ⟨"/etc", 50⟩) []),
     ("opt", .mk 0 (some ⟨"/opt", 5⟩) []),
     ("var", .mk 0 none [("run", .mk 0 (some ⟨"/var/run", 3⟩) [])]),
     ("app", .mk 0 (some ⟨"/app", 1⟩) [])]

def primedState (N : Nat) (id : String) (root : TrieNode) : PathAnalyzer :=
  { root := cfgTrieRoot N, identRoots := [(id, root)], configs := CollapseConfigs,
    defaultCfg := ⟨"/", N⟩ }

def wfAcc (acc : List (String × OpenCalls)) : Prop :=
  ∀ k v, lookupOpen k acc = some v → v.path = k

def flatLit (kids : List (String × TrieNode)) : Prop :=
  ∀ kv ∈ kids, isLit kv.1 = true ∧ kv.2.children = []

/-- The chain of single-child nodes created by inserting a path into an empty
trie. -/
def chainKids : List String → List (String × TrieNode)
  | [] => []
  | s :: rest => [(s, .mk 1 none (chainKids rest))]

/-- Safety of the configuration walk: the active threshold is at least 2 at
every step along the given segments. -/
def CfgSafe : TrieNode → CollapseConfig → List String → Prop
  | _, _, [] => True
  | n, c, s :: rest => 2 ≤ c.threshold ∧ CfgSafe (cfgStep n c s).1 (cfgStep n c s).2 rest

/-- The nodes of the configuration trie of `NewPathAnalyzer` reachable
without consuming an `app` segment. -/
def CfgNodeOk (N : Nat) (n : TrieNode) : Prop :=
  n = cfgTrieRoot N ∨ n = .mk 0 (some ⟨"/etc", 50⟩) [] ∨ n = .mk 0 (some ⟨"/opt", 5⟩) [] ∨
  n = .mk 0 none [("run", .mk 0 (some ⟨"/var/run", 3⟩) [])] ∨
  n = .mk 0 (some ⟨"/var/run", 3⟩) []

/-! ### General list lemmas -/

theorem foldl_inv {α β : Type _} {inv : β → Prop} (step : β → α → β) (l : List α)
    (init : β) (h0 : inv init) (hs : ∀ b a, a ∈ l → inv b → inv (step b a)) :
    inv (l.foldl step init) := by
  induction l generalizing init with
  | nil => exact h0
  | cons a l ih =>
    exact ih (step init a) (hs init a (List.mem_cons_self a l) h0)
      (fun b x hx hb => hs b x (List.mem_cons_of_mem a hx) hb)

theorem mem_insertSorted {α : Type _} (lt : α → α → Bool) (x y : α) (l : List α)
    (h : x ∈ insertSorted lt y l) : x = y ∨ x ∈ l := by
  induction l with
  | nil =>
    simp only [insertSorted, List.mem_singleton] at h
    exact Or.inl h
  | cons z rest ih =>
    simp only [insertSorted] at h
    by_cases hc : lt y z = true
    · simp only [if_pos hc, List.mem_cons] at h
      rcases h with h | h | h
      · exact Or.inl h
      · exact Or.inr (by simp [h])
      · exact Or.inr (List.mem_cons_of_mem z h)
    · simp only [if_neg hc, List.mem_cons] at h
      rcases h with h | h
      · exact Or.inr (by simp [h])
      · rcases ih h with h | h
        · exact Or.inl h
        · exact Or.inr (List.mem_cons_of_mem z h)

theorem mem_sortBy {α : Type _} (lt : α → α → Bool) (x : α) (l : List α)
    (h : x ∈ sortBy lt l) : x ∈ l := by
  induction l with
  | nil =>
    simp only [sortBy] at h
    exact h
  | cons y rest ih =>
    simp only [sortBy] at h
    rcases mem_insertSorted lt x y (sortBy lt rest) h with h | h
    · simp [h]
    · exact List.mem_cons_of_mem y (ih h)

/-! ### Claim theorems -/

/-- C2: the claim says a nil SBOM set behaves like an empty set and
`AnalyzeOpens` returns the generalized list with a nil error; the code
instead rejects a nil `sbomSet` outright.  This theorem evaluates the code at
the failing input of the repository's own test
`TestAnalyzeOpens_NilSbomSetNoError`, which asserts that no error occurs. -/
theorem c2_nil_sbom_errors :
    AnalyzeOpens
      (some [⟨"/usr/lib/libfoo.so", ["READ"]⟩, ⟨"/usr/lib/libbar.so", ["READ"]⟩])
      (NewPathAnalyzer 3) none = .error "sbomSet is nil" := rfl

/-- C5 counterexample: on the input of the claim (and of test
`TestAnalyzeEndpointsWildcardPortAbsorbsSpecificPort`, with the endpoint
analyzer `NewPathAnalyzer 100`), `AnalyzeEndpoints` returns two endpoints,
not the single collapsed endpoint `:0/users/⋯` stated by the claim: two
distinct children never exceed the threshold 100, so the paths stay
distinct. -/
theorem c5_two_paths_do_not_collapse :
    (AnalyzeEndpoints
        [⟨":0/users/123", ["GET"], false, "outbound", .obj []⟩,
         ⟨":80/users/456", ["POST"], false, "outbound", .obj []⟩]
        (NewPathAnalyzer 100)).length = 2 ∧
    ((AnalyzeEndpoints
        [⟨":0/users/123", ["GET"], false, "outbound", .obj []⟩,
         ⟨":80/users/456", ["POST"], false, "outbound", .obj []⟩]
        (NewPathAnalyzer 100)).map HTTPEndpoint.endpoint).contains
      (":0/users/" ++ DynamicIdentifier) = false := by
  exact ⟨rfl, rfl⟩

/-- C5 (amended): `AnalyzeEndpoints` on `[{:0/users/123, [GET], outbound},
{:80/users/456, [POST], outbound}]` detects port 0 as the wildcard port and
rewrites the `:80` endpoint to port 0 before processing, and returns the two
endpoints `{:0/users/123, [GET], outbound}` and `{:0/users/456, [POST],
outbound}`: both carry the wildcard port, but the two paths do not collapse
(two distinct literal children do not exceed the endpoint threshold). -/
theorem c5_wildcard_port_rewrite :
    AnalyzeEndpoints
        [⟨":0/users/123", ["GET"], false, "outbound", .obj []⟩,
         ⟨":80/users/456", ["POST"], false, "outbound", .obj []⟩]
        (NewPathAnalyzer 100) =
      [⟨":0/users/123", ["GET"], false, "outbound", .obj []⟩,
       ⟨":0/users/456", ["POST"], false, "outbound", .obj []⟩] := rfl

/-- C6: `AnalyzeExecs` on 11 ExecCalls with path `/usr/bin/curl` and
single-element args `["http://service<i>"]` for i in 0..10 at threshold 10
returns exactly one ExecCall `{/usr/bin/curl, [⋯]}`; and in general every
returned ExecCall carries the path of some input ExecCall unchanged (paths
are never generalized, only argument positions). -/
theorem c6_exec_args_collapse :
    (AnalyzeExecs (some ((List.range 11).map
        (fun i => ⟨"/usr/bin/curl", ["http://service" ++ toString i], [], ""⟩))) 10 =
      some [⟨"/usr/bin/curl", [DynamicIdentifier], [], ""⟩]) ∧
    ∀ (execs : List ExecCalls) (t : Nat) (l : List ExecCalls) (e : ExecCalls),
      AnalyzeExecs (some execs) t = some l → e ∈ l →
      e.path ∈ execs.map ExecCalls.path := by
  refine ⟨rfl, ?_⟩
  intro execs t l e hl he
  simp only [AnalyzeExecs, Option.some.injEq] at hl
  subst hl
  have h1 := mem_sortBy _ _ _ he
  rcases List.mem_map.mp h1 with ⟨kv, hkv, hev⟩
  have key : ∀ kv2 ∈ execs.foldl
      (fun (acc : List (String × ExecCalls)) e2 =>
        let collapsed : ExecCalls :=
          { path := e2.path
            args := AnalyzeArgs (execs.foldl (fun a e3 => AddArgs a e3.args e3.path) (NewArgAnalyzer t)) e2.args e2.path
            envs := e2.envs
            parentPath := e2.parentPath }
        let k := collapsed.repr
        if (acc.lookup k).isSome then acc else acc ++ [(k, collapsed)]) [],
      kv2.2.path ∈ execs.map ExecCalls.path := by
    refine @foldl_inv _ _
      (fun (acc : List (String × ExecCalls)) =>
        ∀ kv2 ∈ acc, kv2.2.path ∈ execs.map ExecCalls.path) _ execs [] ?_ ?_
    · intro kv2 h
      exact absurd h (List.not_mem_nil kv2)
    intro b a ha hb kv2 hkv2
    by_cases hfound : (b.lookup (ExecCalls.repr
        { path := a.path
          args := AnalyzeArgs (execs.foldl (fun a2 e3 => AddArgs a2 e3.args e3.path) (NewArgAnalyzer t)) a.args a.path
          envs := a.envs
          parentPath := a.parentPath })).isSome
    · simp only [if_pos hfound] at hkv2
      exact hb kv2 hkv2
    · simp only [if_neg hfound, List.mem_append, List.mem_singleton] at hkv2
      rcases hkv2 with hkv2 | hkv2
      · exact hb kv2 hkv2
      · subst hkv2
        exact List.mem_map.mpr ⟨a, ha, rfl⟩
  have := key kv hkv
  rw [hev] at this
  exact this

/-- C6 witness: the universal path-preservation part applied at a concrete
input. -/
theorem c6_exec_args_collapse_witness :
    (⟨"/bin/echo", ["hi"], [], ""⟩ : ExecCalls).path ∈
      ([⟨"/bin/echo", ["hi"], [], ""⟩] : List ExecCalls).map ExecCalls.path :=
  c6_exec_args_collapse.2 [⟨"/bin/echo", ["hi"], [], ""⟩] 10
    [⟨"/bin/echo", ["hi"], [], ""⟩] ⟨"/bin/echo", ["hi"], [], ""⟩ rfl (by decide)

theorem analyzeArgsLoop_shape (t : Nat) :
    ∀ (l : List String) (o : Option ArgNode),
      List.Forall₂ (fun r x => r = x ∨ r = DynamicIdentifier)
        (analyzeArgsLoop t o l) l := by
  intro l
  induction l with
  | nil => intro o; cases o <;> exact List.Forall₂.nil
  | cons x rest ih =>
    intro o
    cases o with
    | none =>
      simp only [analyzeArgsLoop]
      exact List.Forall₂.cons (Or.inl rfl) (ih none)
    | some node =>
      by_cases hc : node.children.length > t
      · simp only [analyzeArgsLoop, if_pos hc]
        exact List.Forall₂.cons (Or.inr rfl) (ih _)
      · simp only [analyzeArgsLoop, if_neg hc]
        exact List.Forall₂.cons (Or.inl rfl) (ih _)

/-- C9: `AnalyzeArgs` always returns a vector of exactly the input's length
in which each position is either the original argument at that position or
`⋯`, and for an executable path never added to the analyzer it returns the
input vector unchanged. -/
theorem c9_analyze_args_length (a : ArgAnalyzer) (args : List String) (p : String) :
    (AnalyzeArgs a args p).length = args.length ∧
    List.Forall₂ (fun r x => r = x ∨ r = DynamicIdentifier)
      (AnalyzeArgs a args p) args ∧
    (lookupArg p a.roots = none → AnalyzeArgs a args p = args) := by
  have shape : List.Forall₂ (fun r x => r = x ∨ r = DynamicIdentifier)
      (AnalyzeArgs a args p) args := by
    by_cases hargs : args = []
    · subst hargs
      exact List.Forall₂.nil
    · simp only [AnalyzeArgs, if_neg hargs]
      cases hr : lookupArg p a.roots with
      | none =>
        exact (List.forall₂_same).mpr (fun x _ => Or.inl rfl)
      | some root => exact analyzeArgsLoop_shape a.threshold args (some root)
  refine ⟨shape.length_eq, shape, ?_⟩
  intro hnone
  by_cases hargs : args = []
  · subst hargs; rfl
  · simp [AnalyzeArgs, if_neg hargs, hnone]

/-- C9 witness: all three conclusions at a concrete analyzer that never saw
the path. -/
theorem c9_analyze_args_length_witness :
    (AnalyzeArgs (NewArgAnalyzer 5) ["x", "y"] "/bin/ls").length = 2 ∧
    List.Forall₂ (fun r x => r = x ∨ r = DynamicIdentifier)
      (AnalyzeArgs (NewArgAnalyzer 5) ["x", "y"] "/bin/ls") ["x", "y"] ∧
    AnalyzeArgs (NewArgAnalyzer 5) ["x", "y"] "/bin/ls" = ["x", "y"] :=
  ⟨(c9_analyze_args_length (NewArgAnalyzer 5) ["x", "y"] "/bin/ls").1,
   (c9_analyze_args_length (NewArgAnalyzer 5) ["x", "y"] "/bin/ls").2.1,
   (c9_analyze_args_length (NewArgAnalyzer 5) ["x", "y"] "/bin/ls").2.2 rfl⟩

/-- C10: `mergeHeaders` modifies only the `Headers` field of the existing
endpoint: the incoming endpoint is returned unmodified, the existing
endpoint's `Endpoint`, `Methods`, `Internal` and `Direction` fields are
unchanged, and when either side's headers fail to parse the existing endpoint
is returned entirely unchanged (re-serialization of the merged map, a
`map[string][]string`, cannot fail). -/
theorem c10_merge_headers_frame (e n : HTTPEndpoint) :
    (mergeHeaders e n).2 = n ∧
    (mergeHeaders e n).1.endpoint = e.endpoint ∧
    (mergeHeaders e n).1.methods = e.methods ∧
    (mergeHeaders e n).1.internal = e.internal ∧
    (mergeHeaders e n).1.direction = e.direction ∧
    (((getHeadersOf e.headers).toOption = none ∨ (getHeadersOf n.headers).toOption = none) →
      (mergeHeaders e n).1 = e) := by
  cases he : e.headers with
  | garbage => simp [mergeHeaders, he, getHeadersOf]
  | obj me =>
    cases hn : n.headers with
    | garbage => simp [mergeHeaders, he, hn, getHeadersOf]
    | obj mn => simp [mergeHeaders, he, hn, getHeadersOf, Except.toOption]

/-- C10 witness: the frame conditions at concrete endpoints, including the
parse-failure case leaving the existing endpoint untouched. -/
theorem c10_merge_headers_frame_witness :
    (mergeHeaders ⟨":80/x", ["GET"], false, "outbound", .garbage⟩
        ⟨":80/y", ["POST"], true, "inbound", .obj [("k", ["v"])]⟩).2 =
      ⟨":80/y", ["POST"], true, "inbound", .obj [("k", ["v"])]⟩ ∧
    (mergeHeaders ⟨":80/x", ["GET"], false, "outbound", .garbage⟩
        ⟨":80/y", ["POST"], true, "inbound", .obj [("k", ["v"])]⟩).1 =
      ⟨":80/x", ["GET"], false, "outbound", .garbage⟩ :=
  ⟨(c10_merge_headers_frame _ _).1,
   (c10_merge_headers_frame ⟨":80/x", ["GET"], false, "outbound", .garbage⟩
      ⟨":80/y", ["POST"], true, "inbound", .obj [("k", ["v"])]⟩).2.2.2.2.2
      (Or.inl rfl)⟩

/-- C1 counterexample: with `NewPathAnalyzer 2` and input
`[/home/a/f [READ], /home/b/f [READ], /home/c/f [READ]]` with SBOM set
`{/home/a/f}`, `AnalyzeOpens` returns the single generalized entry
`{/home/⋯/f, [READ]}`: the SBOM-protected path `/home/a/f` does not appear
unchanged in the output, because the consolidation pass re-analyzes every
entry without consulting the SBOM set. -/
theorem c1_sbom_lost_in_consolidation :
    AnalyzeOpens
        (some [⟨"/home/a/f", ["READ"]⟩, ⟨"/home/b/f", ["READ"]⟩, ⟨"/home/c/f", ["READ"]⟩])
        (NewPathAnalyzer 2) (some ["/home/a/f"]) =
      .ok (some [⟨"/home/" ++ DynamicIdentifier ++ "/f", ["READ"]⟩]) ∧
    ("/home/" ++ DynamicIdentifier ++ "/f" : String) ≠ "/home/a/f" := by
  exact ⟨rfl, by decide⟩

/-- C3 counterexample: at threshold `N = 1` the claim fails: inserting
exactly one distinct literal child (the path `/a`) triggers the immediate
wildcard collapse, so the single inserted path reads back as `/*`, not
literally. -/
theorem c3_threshold_one_wildcards :
    (AnalyzePath (AnalyzePath (NewPathAnalyzer 1) "/a" "opens").snd "/a" "opens").fst =
      "/" ++ WildcardIdentifier ∧ ("/" ++ WildcardIdentifier : String) ≠ "/a" := by
  exact ⟨rfl, by decide⟩

/-- C7 counterexample: `/a/*/b` is itself an output of generalization (a
fresh analyzer generalizes `/a/⋯/⋯/b` to it), yet a fresh analyzer primed
with `/a/*/b` alone returns `/a/*` from the second `AnalyzePath` call — the
mid-path `*` absorbs the tail on read-back.  Likewise `/app/foo` (a
generalization output) reads back as `/app/*` because the `/app` prefix has
threshold 1.  Generalization is therefore not idempotent as claimed. -/
theorem c7_idempotence_fails :
    ((AnalyzePath (NewPathAnalyzer 50)
        ("/a/" ++ DynamicIdentifier ++ "/" ++ DynamicIdentifier ++ "/b") "opens").fst =
      "/a/" ++ WildcardIdentifier ++ "/b") ∧
    ((AnalyzePath (AnalyzePath (NewPathAnalyzer 50)
        ("/a/" ++ WildcardIdentifier ++ "/b") "opens").snd
        ("/a/" ++ WildcardIdentifier ++ "/b") "opens").fst = "/a/" ++ WildcardIdentifier) ∧
    ("/a/" ++ WildcardIdentifier : String) ≠ "/a/" ++ WildcardIdentifier ++ "/b" ∧
    ((AnalyzePath (NewPathAnalyzer 50) "/app/foo" "opens").fst = "/app/foo") ∧
    ((AnalyzePath (AnalyzePath (NewPathAnalyzer 50) "/app/foo" "opens").snd
        "/app/foo" "opens").fst = "/app/" ++ WildcardIdentifier) ∧
    ("/app/" ++ WildcardIdentifier : String) ≠ "/app/foo" := by
  refine ⟨rfl, rfl, by decide, rfl, rfl, by decide⟩

/-- C8 counterexample: after inserting `/app/x`, `/b/y`, `/c/z` into a fresh
`NewPathAnalyzer 2` (identifier `opens`), the observation trie violates
marker-sibling exclusivity: the dynamic collapse at the root union-merges the
`/app` subtree (whose child is `*`) with the `/b` subtree (whose child is the
literal `y`), leaving a node with a `*` child beside a literal sibling. -/
theorem c8_wildcard_sibling_violation :
    wildcardExclusive
      (identRootOf
        (AnalyzePath
          (AnalyzePath
            (AnalyzePath (NewPathAnalyzer 2) "/app/x" "opens").snd
            "/b/y" "opens").snd
          "/c/z" "opens").snd
        "opens") = false := rfl

/-! ### The configuration trie of `NewPathAnalyzer`, in closed form -/

theorem newPathAnalyzer_eq (N : Nat) :
    NewPathAnalyzer N =
      { root := cfgTrieRoot N, identRoots := [], configs := CollapseConfigs,
        defaultCfg := ⟨"/", N⟩ } := rfl

/-- C4: with the per-prefix configuration `{/app: 1}` (installed by
`NewPathAnalyzer` for any default threshold `N ≥ 2`), inserting the single
path `/app/only/deep/path` immediately triggers a wildcard collapse under
`/app`, and `AnalyzePath` of any subsequent path beginning with `/app/`
(same identifier) returns exactly `/app/*`. -/
theorem c4_threshold_one_app_wildcard (N : Nat) (h2 : 2 ≤ N) (id p p' : String)
    (rest : List String) (hp : splitPath p = ["app", "only", "deep", "path"])
    (hp' : splitPath p' = "app" :: rest) (hrest : rest ≠ []) :
    (AnalyzePath (AnalyzePath (NewPathAnalyzer N) p id).snd p' id).fst =
      "/app/" ++ WildcardIdentifier := by
  have hN1 : ¬(N = 1) := by omega
  have hgt : ¬(1 > N) := by omega
  have hroot :
      addPathToRoot (cfgTrieRoot N) ⟨"/", N⟩ NewTrieNode
          ["app", "only", "deep", "path"] =
        .mk 0 none [("app", .mk 1 none [(WildcardIdentifier, .mk 2 none [])])] := by
    simp [addPathToRoot, lookupChild, setChild, cfgStep, cfgTrieRoot,
      NewTrieNode, TrieNode.children, TrieNode.cfg, TrieNode.count, TrieNode.withChildren,
      TrieNode.withCount, TrieNode.withCfg, DynamicIdentifier, WildcardIdentifier,
      createWildcardNode, sumCounts, hN1, hgt]
  have hcfg : (cfgTrieRoot N).cfg = some ⟨"/", N⟩ := rfl
  have hstate : (AnalyzePath (NewPathAnalyzer N) p id).snd =
      { root := cfgTrieRoot N, configs := CollapseConfigs, defaultCfg := ⟨"/", N⟩,
        identRoots :=
          [(id, .mk 0 none [("app", .mk 1 none [(WildcardIdentifier, .mk 2 none [])])])] } := by
    rw [newPathAnalyzer_eq]
    simp only [AnalyzePath, hp, analyzePathSegs]
    rw [if_neg (by simp)]
    simp only [lookupChild, Option.getD, hcfg, setChild]
    rw [hroot]
  rw [hstate]
  obtain ⟨r, rest', hr⟩ : ∃ r rest', rest = r :: rest' := by
    cases rest with
    | nil => exact absurd rfl hrest
    | cons r rest' => exact ⟨r, rest', rfl⟩
  simp only [AnalyzePath, hp', analyzePathSegs, hr]
  rw [if_neg (by simp)]
  simp [readSegs, lookupChild, identRootOf, DynamicIdentifier, WildcardIdentifier,
    joinSegs, joinChars, CollapseAdjacentDynamicIdentifiers, collapseAdjacentSegs,
    collapseAux, splitAll, splitChars, TrieNode.children]

/-- C4 witness: the theorem at `N = 2`, priming `/app/only/deep/path` and
reading `/app/x`. -/
theorem c4_threshold_one_app_wildcard_witness :
    (AnalyzePath (AnalyzePath (NewPathAnalyzer 2) "/app/only/deep/path" "opens").snd
        "/app/x" "opens").fst = "/app/" ++ WildcardIdentifier :=
  c4_threshold_one_app_wildcard 2 (by omega) "opens" "/app/only/deep/path" "/app/x"
    ["x"] rfl rfl (by decide)

/-- C8 (amended): direct insertion maintains wildcard exclusivity.
`createWildcardNode` always leaves `*` as the only child of its node, and
inserting any path at a node that has a `*` child leaves the children
untouched apart from incrementing the wildcard's count (the wildcard consumes
the path).  The global invariant fails only through the union-merge of a
dynamic collapse (see the counterexample). -/
theorem c8_wildcard_exclusivity_local (n cfgN : TrieNode) (cfg : CollapseConfig)
    (node wc : TrieNode) (s : String) (rest : List String)
    (h : lookupChild WildcardIdentifier node.children = some wc) :
    (createWildcardNode n).children.length = 1 ∧
    (lookupChild WildcardIdentifier (createWildcardNode n).children).isSome = true ∧
    addPathToRoot cfgN cfg node (s :: rest) =
      node.withChildren
        (setChild WildcardIdentifier (wc.withCount (wc.count + 1)) node.children) := by
  refine ⟨rfl, ?_, ?_⟩
  · simp [createWildcardNode, TrieNode.withChildren, TrieNode.children, lookupChild]
  · simp only [addPathToRoot, h]

/-- C8 witness: the local exclusivity statements at a concrete node with a
`*` child. -/
theorem c8_wildcard_exclusivity_local_witness :
    (createWildcardNode (.mk 0 none [("a", .mk 1 none [])])).children.length = 1 ∧
    (lookupChild WildcardIdentifier
      (createWildcardNode (.mk 0 none [("a", .mk 1 none [])])).children).isSome = true ∧
    addPathToRoot NewTrieNode ⟨"/", 5⟩
        (.mk 0 none [(WildcardIdentifier, .mk 3 none [])]) ["q"] =
      (TrieNode.mk 0 none [(WildcardIdentifier, .mk 3 none [])]).withChildren
        (setChild WildcardIdentifier ((TrieNode.mk 3 none []).withCount 4)
          [(WildcardIdentifier, .mk 3 none [])]) :=
  c8_wildcard_exclusivity_local (.mk 0 none [("a", .mk 1 none [])]) NewTrieNode ⟨"/", 5⟩
    (.mk 0 none [(WildcardIdentifier, .mk 3 none [])]) (.mk 3 none []) "q" [] rfl

/-! ### C1: SBOM handling in AnalyzeOpens -/

theorem lookupOpen_setOpen (k k' : String) (v : OpenCalls) (l : List (String × OpenCalls)) :
    lookupOpen k' (setOpen k v l) = if k = k' then some v else lookupOpen k' l := by
  induction l with
  | nil => rfl
  | cons kv rest ih =>
    obtain ⟨k2, v2⟩ := kv
    simp only [setOpen]
    by_cases h2 : k2 = k
    · subst h2
      simp only [if_pos rfl, lookupOpen]
      by_cases h : k2 = k'
      · simp [h]
      · simp [h]
    · simp only [if_neg h2, lookupOpen]
      by_cases h : k2 = k'
      · have : ¬(k = k') := fun hh => h2 (by rw [hh, h])
        simp [h, this]
      · simp [h, ih]

theorem wfAcc_set (acc : List (String × OpenCalls)) (k : String) (v : OpenCalls)
    (hw : wfAcc acc) (hv : v.path = k) : wfAcc (setOpen k v acc) := by
  intro k' v' h
  rw [lookupOpen_setOpen] at h
  by_cases hk : k = k'
  · rw [if_pos hk] at h
    cases h
    rw [hv, hk]
  · rw [if_neg hk] at h
    exact hw k' v' h

theorem pass2_wf (sbom : List String) (opens : List OpenCalls) (pa : PathAnalyzer)
    (acc : List (String × OpenCalls)) (hw : wfAcc acc) :
    wfAcc (analyzeOpensPass2 sbom pa opens acc).fst := by
  induction opens generalizing pa acc with
  | nil => exact hw
  | cons o rest ih =>
    simp only [analyzeOpensPass2]
    by_cases hsb : o.path ∈ sbom
    · rw [if_pos hsb]
      exact ih _ _ (wfAcc_set acc o.path o hw rfl)
    · rw [if_neg hsb]
      by_cases hne : (AnalyzeOpen pa o.path).fst ≠ o.path
      · rw [if_pos hne]
        cases hl : lookupOpen (AnalyzeOpen pa o.path).fst acc with
        | some existing =>
          simp only
          have hv := hw _ existing hl
          exact ih _ _ (wfAcc_set acc _ _ hw hv)
        | none =>
          simp only
          exact ih _ _ (wfAcc_set acc _ _ hw rfl)
      · rw [if_neg hne]
        exact ih _ _ (wfAcc_set acc o.path o hw rfl)

theorem pass2_mono (sbom : List String) (opens : List OpenCalls) (pa : PathAnalyzer)
    (acc : List (String × OpenCalls)) (k : String)
    (hk : (lookupOpen k acc).isSome) :
    (lookupOpen k (analyzeOpensPass2 sbom pa opens acc).fst).isSome := by
  induction opens generalizing pa acc with
  | nil => exact hk
  | cons o rest ih =>
    simp only [analyzeOpensPass2]
    have mono_set : ∀ (k2 : String) (v : OpenCalls),
        (lookupOpen k (setOpen k2 v acc)).isSome := by
      intro k2 v
      rw [lookupOpen_setOpen]
      by_cases h : k2 = k
      · simp [h]
      · simpa [h] using hk
    by_cases hsb : o.path ∈ sbom
    · rw [if_pos hsb]
      exact ih _ _ (mono_set _ _)
    · rw [if_neg hsb]
      by_cases hne : (AnalyzeOpen pa o.path).fst ≠ o.path
      · rw [if_pos hne]
        cases hl : lookupOpen (AnalyzeOpen pa o.path).fst acc with
        | some existing =>
          simp only
          exact ih _ _ (mono_set _ _)
        | none =>
          simp only
          exact ih _ _ (mono_set _ _)
      · rw [if_neg hne]
        exact ih _ _ (mono_set _ _)

theorem pass2_sbom_present (sbom : List String) (opens : List OpenCalls)
    (pa : PathAnalyzer) (acc : List (String × OpenCalls)) (o : OpenCalls)
    (ho : o ∈ opens) (hs : o.path ∈ sbom) :
    (lookupOpen o.path (analyzeOpensPass2 sbom pa opens acc).fst).isSome := by
  induction opens generalizing pa acc with
  | nil => exact absurd ho (List.not_mem_nil o)
  | cons o2 rest ih =>
    simp only [analyzeOpensPass2]
    rcases List.mem_cons.mp ho with h | h
    · subst h
      rw [if_pos hs]
      apply pass2_mono
      rw [lookupOpen_setOpen]
      simp
    · by_cases hsb : o2.path ∈ sbom
      · rw [if_pos hsb]
        exact ih _ _ h
      · rw [if_neg hsb]
        by_cases hne : (AnalyzeOpen pa o2.path).fst ≠ o2.path
        · rw [if_pos hne]
          cases hl : lookupOpen (AnalyzeOpen pa o2.path).fst acc with
          | some existing =>
            simp only
            exact ih _ _ h
          | none =>
            simp only
            exact ih _ _ h
        · rw [if_neg hne]
          exact ih _ _ h

/-- C1 (amended): every input OpenCall whose Path is in the SBOM set is
emitted unchanged into the intermediate map built by the generalization pass
of `AnalyzeOpens` (the map binds its exact Path to an OpenCall carrying that
same Path); the consolidation pass however re-analyzes every entry without
consulting the SBOM set, so the protected path need not survive into the
returned list (see the counterexample). -/
theorem c1_sbom_preserved_in_pass2 (sbom : List String) (pa : PathAnalyzer)
    (opens : List OpenCalls) (o : OpenCalls) (ho : o ∈ opens) (hs : o.path ∈ sbom) :
    ∃ v, lookupOpen o.path
        (analyzeOpensPass2 sbom (primeOpens pa opens) opens []).fst = some v ∧
      v.path = o.path := by
  have hp := pass2_sbom_present sbom opens (primeOpens pa opens) [] o ho hs
  have hw := pass2_wf sbom opens (primeOpens pa opens) [] (fun k v h => by cases h)
  cases hl : lookupOpen o.path (analyzeOpensPass2 sbom (primeOpens pa opens) opens []).fst with
  | none => rw [hl] at hp; cases hp
  | some v => exact ⟨v, rfl, hw _ _ hl⟩

/-- C1 witness: the intermediate-map preservation at the counterexample's
input. -/
theorem c1_sbom_preserved_in_pass2_witness :
    ∃ v, lookupOpen "/home/a/f"
        (analyzeOpensPass2 ["/home/a/f"]
          (primeOpens (NewPathAnalyzer 2)
            [⟨"/home/a/f", ["READ"]⟩, ⟨"/home/b/f", ["READ"]⟩, ⟨"/home/c/f", ["READ"]⟩])
          [⟨"/home/a/f", ["READ"]⟩, ⟨"/home/b/f", ["READ"]⟩, ⟨"/home/c/f", ["READ"]⟩]
          []).fst = some v ∧
      v.path = "/home/a/f" :=
  c1_sbom_preserved_in_pass2 ["/home/a/f"] (NewPathAnalyzer 2)
    [⟨"/home/a/f", ["READ"]⟩, ⟨"/home/b/f", ["READ"]⟩, ⟨"/home/c/f", ["READ"]⟩]
    ⟨"/home/a/f", ["READ"]⟩ (by decide) (by decide)

theorem lookupChild_of_forall_ne (k : String) (kids : List (String × TrieNode))
    (h : ∀ kv ∈ kids, kv.1 ≠ k) : lookupChild k kids = none := by
  induction kids with
  | nil => rfl
  | cons kv rest ih =>
    obtain ⟨k2, v2⟩ := kv
    simp only [lookupChild]
    rw [if_neg (h (k2, v2) (List.mem_cons_self _ _))]
    exact ih (fun kv2 h2 => h kv2 (List.mem_cons_of_mem _ h2))

theorem isLit_ne_dyn {s : String} (h : isLit s = true) : s ≠ DynamicIdentifier := by
  simp only [isLit, Bool.and_eq_true, decide_eq_true_eq] at h
  exact h.1.2

theorem isLit_ne_star {s : String} (h : isLit s = true) : s ≠ WildcardIdentifier := by
  simp only [isLit, Bool.and_eq_true, decide_eq_true_eq] at h
  exact h.2

theorem flatLit_no_star {kids : List (String × TrieNode)} (h : flatLit kids) :
    lookupChild WildcardIdentifier kids = none :=
  lookupChild_of_forall_ne _ _ (fun kv hm => isLit_ne_star (h kv hm).1)

theorem flatLit_no_dyn {kids : List (String × TrieNode)} (h : flatLit kids) :
    lookupChild DynamicIdentifier kids = none :=
  lookupChild_of_forall_ne _ _ (fun kv hm => isLit_ne_dyn (h kv hm).1)

theorem readSegs_flat_single (c : Nat) (f : Option CollapseConfig)
    (kids : List (String × TrieNode)) (h : flatLit kids) (s : String) :
    readSegs (.mk c f kids) [s] = [s] := by
  simp only [readSegs, TrieNode.children, flatLit_no_star h, flatLit_no_dyn h]
  cases lookupChild s kids <;> rfl

theorem setChild_append_of_absent (k : String) (v : TrieNode)
    (l : List (String × TrieNode)) (h : lookupChild k l = none) :
    setChild k v l = l ++ [(k, v)] := by
  induction l with
  | nil => rfl
  | cons kv rest ih =>
    obtain ⟨k2, v2⟩ := kv
    simp only [lookupChild] at h
    by_cases h2 : k2 = k
    · rw [if_pos h2] at h; cases h
    · rw [if_neg h2] at h
      simp only [setChild, if_neg h2, List.cons_append, List.cons.injEq, true_and]
      exact ih h

theorem lookupChild_append_left (k : String) (l1 l2 : List (String × TrieNode))
    (h : lookupChild k l1 = none) :
    lookupChild k (l1 ++ l2) = lookupChild k l2 := by
  induction l1 with
  | nil => rfl
  | cons kv rest ih =>
    obtain ⟨k2, v2⟩ := kv
    simp only [lookupChild] at h ⊢
    by_cases h2 : k2 = k
    · rw [if_pos h2] at h; cases h
    · rw [if_neg h2] at h
      rw [if_neg h2]
      exact ih h

theorem setChild_of_lookup_self (k : String) (v : TrieNode)
    (l : List (String × TrieNode)) (h : lookupChild k l = some v) :
    setChild k v l = l := by
  induction l with
  | nil => cases h
  | cons kv rest ih =>
    obtain ⟨k2, v2⟩ := kv
    simp only [lookupChild] at h
    simp only [setChild]
    by_cases h2 : k2 = k
    · rw [if_pos h2] at h
      cases h
      rw [if_pos h2, h2]
    · rw [if_neg h2] at h
      rw [if_neg h2, ih h]

theorem mergeAllChildren_flat (kids : List (String × TrieNode))
    (h : ∀ kv ∈ kids, kv.2.children = []) :
    ∃ m, mergeAllChildren kids = .mk m none [] := by
  suffices hgen : ∀ (a : Nat), ∃ m,
      kids.foldl (fun acc kv => shallowChildrenCopy kv.2 (acc.withCount (acc.count + kv.2.count)))
        (.mk a none []) = .mk m none [] by
    exact hgen 0
  induction kids with
  | nil => exact fun a => ⟨a, rfl⟩
  | cons kv rest ih =>
    intro a
    obtain ⟨k2, v2⟩ := kv
    have hv2 : v2.children = [] := h (k2, v2) (List.mem_cons_self _ _)
    have step : shallowChildrenCopy v2
        ((TrieNode.mk a none []).withCount ((TrieNode.mk a none []).count + v2.count)) =
        .mk (a + v2.count) none [] := by
      cases v2 with
      | mk c2 f2 ch2 =>
        simp only [TrieNode.children] at hv2
        subst hv2
        rfl
    simp only [List.foldl]
    rw [step]
    exact ih (fun kv2 h2 => h kv2 (List.mem_cons_of_mem _ h2)) (a + v2.count)

theorem splitChars_ne_nil (cs : List Char) : splitChars cs ≠ [] := by
  cases cs with
  | nil => simp [splitChars]
  | cons c cs =>
    simp only [splitChars]
    by_cases h : c = '/'
    · simp [h]
    · rw [if_neg h]
      cases hs : splitChars cs with
      | nil => simp
      | cons g gs => simp

theorem joinChars_splitChars (cs : List Char) : joinChars (splitChars cs) = cs := by
  induction cs with
  | nil => rfl
  | cons c cs ih =>
    simp only [splitChars]
    by_cases h : c = '/'
    · rw [if_pos h]
      cases hs : splitChars cs with
      | nil => exact absurd hs (splitChars_ne_nil cs)
      | cons g gs =>
        rw [hs] at ih
        simp only [joinChars]
        rw [ih, h]
        simp
    · rw [if_neg h]
      cases hs : splitChars cs with
      | nil => exact absurd hs (splitChars_ne_nil cs)
      | cons g gs =>
        rw [hs] at ih
        cases gs with
        | nil =>
          simp only [joinChars] at ih ⊢
          rw [ih]
        | cons g2 gs2 =>
          simp only [joinChars] at ih ⊢
          rw [List.cons_append, ih]

theorem splitChars_no_slash (g : List Char) (h : '/' ∉ g) : splitChars g = [g] := by
  induction g with
  | nil => rfl
  | cons c cs ih =>
    simp only [splitChars]
    have hc : ¬(c = '/') := fun hh => h (by simp [hh])
    rw [if_neg hc, ih (fun hm => h (List.mem_cons_of_mem c hm))]

theorem splitChars_append_slash (g cs : List Char) (h : '/' ∉ g) :
    splitChars (g ++ '/' :: cs) = g :: splitChars cs := by
  induction g with
  | nil => simp [splitChars]
  | cons c g2 ih =>
    have hc : ¬(c = '/') := fun hh => h (by simp [hh])
    simp only [List.cons_append, splitChars, if_neg hc]
    simp only [List.append_eq, ih (fun hm => h (List.mem_cons_of_mem c hm))]

theorem splitAll_joinSegs (l : List String) (hne : l ≠ [])
    (hs : ∀ s ∈ l, '/' ∉ s.data) : splitAll (joinSegs l) = l := by
  have core : ∀ (gs : List (List Char)), gs ≠ [] → (∀ g ∈ gs, '/' ∉ g) →
      splitChars (joinChars gs) = gs := by
    intro gs
    induction gs with
    | nil => intro h; exact absurd rfl h
    | cons g rest ih =>
      intro _ hall
      cases rest with
      | nil =>
        simp only [joinChars]
        exact splitChars_no_slash g (hall g (List.mem_cons_self _ _))
      | cons g2 rest2 =>
        simp only [joinChars]
        rw [splitChars_append_slash g _ (hall g (List.mem_cons_self _ _))]
        rw [ih (by simp) (fun g3 h3 => hall g3 (List.mem_cons_of_mem _ h3))]
  simp only [splitAll, joinSegs]
  rw [core (l.map String.data) (by simpa using hne)
    (by intro g hg; rcases List.mem_map.mp hg with ⟨s, hsl, rfl⟩; exact hs s hsl)]
  rw [List.map_map]
  have hid : (fun cs => (⟨cs⟩ : String)) ∘ String.data = id := by
    funext s; cases s; rfl
  rw [hid, List.map_id]

theorem joinSegs_splitAll (p : String) : joinSegs (splitAll p) = p := by
  simp only [splitAll, joinSegs, List.map_map]
  have hid : String.data ∘ (fun cs => (⟨cs⟩ : String)) = id := by
    funext cs; rfl
  rw [hid, List.map_id]
  cases p with
  | mk d => simp [joinChars_splitChars d]

theorem joinSegs_pair (s : String) : joinSegs ["", s] = "/" ++ s := by
  cases s with
  | mk d => rfl

theorem validSeg_no_slash {s : String} (h : validSeg s = true) : '/' ∉ s.data := by
  simp only [validSeg, Bool.and_eq_true, List.all_eq_true, decide_eq_true_eq] at h
  intro hm
  exact h.2 '/' hm rfl

theorem isLit_valid {s : String} (h : isLit s = true) : validSeg s = true := by
  simp only [isLit, Bool.and_eq_true] at h
  exact h.1.1

theorem collapse_two (s : String) (hv : '/' ∉ s.data) :
    CollapseAdjacentDynamicIdentifiers (joinSegs ["", s]) = "/" ++ s := by
  rw [CollapseAdjacentDynamicIdentifiers, splitAll_joinSegs ["", s] (by simp)
    (by intro t ht
        rcases List.mem_cons.mp ht with h | h
        · subst h; simp
        · rcases List.mem_cons.mp h with h | h
          · subst h; exact hv
          · cases h)]
  simp only [collapseAdjacentSegs, collapseAux]
  rw [if_neg (by simp [DynamicIdentifier])]
  rw [if_neg (by rintro ⟨h1, h2⟩; simp at h2)]
  exact joinSegs_pair s



theorem lookupChild_head (k : String) (v : TrieNode) (rest : List (String × TrieNode)) :
    lookupChild k ((k, v) :: rest) = some v := by
  simp [lookupChild]

theorem out_single (N : Nat) (id : String) (c : Nat) (kids : List (String × TrieNode))
    (hflat : flatLit kids) (s : String) (hv : '/' ∉ s.data) :
    (analyzePathSegs (primedState N id (.mk c none kids)) [s] id).fst = "/" ++ s := by
  simp only [analyzePathSegs]
  rw [if_neg (by simp)]
  simp only [primedState, lookupChild_head, Option.getD_some]
  rw [readSegs_flat_single c none kids hflat s]
  exact collapse_two s hv

theorem out_dyn (N : Nat) (id : String) (c m : Nat) (s : String) :
    (analyzePathSegs
        (primedState N id (.mk c none [(DynamicIdentifier, .mk m none [])])) [s] id).fst =
      "/" ++ DynamicIdentifier := by
  simp only [analyzePathSegs]
  rw [if_neg (by simp)]
  simp only [primedState, lookupChild_head, Option.getD_some]
  have hread : readSegs (.mk c none [(DynamicIdentifier, .mk m none [])]) [s] =
      [DynamicIdentifier] := by
    simp only [readSegs, TrieNode.children, lookupChild]
    rw [if_neg (by decide)]
    simp [readSegs]
  rw [hread]
  exact collapse_two DynamicIdentifier (by decide)



theorem setChild_head (k : String) (v v2 : TrieNode) (rest : List (String × TrieNode)) :
    setChild k v ((k, v2) :: rest) = (k, v) :: rest := by
  simp [setChild]

theorem cfgTrieRoot_cfg (N : Nat) : (cfgTrieRoot N).cfg = some ⟨"/", N⟩ := rfl

theorem flatLit_append (kids : List (String × TrieNode)) (s : String)
    (hflat : flatLit kids) (hlit : isLit s = true) :
    flatLit (kids ++ [(s, .mk 1 none [])]) := by
  intro kv hm
  rcases List.mem_append.mp hm with h | h
  · exact hflat kv h
  · rcases List.mem_singleton.mp h with rfl
    exact ⟨hlit, rfl⟩

theorem insert_state_fresh (N : Nat) (id : String) (kids : List (String × TrieNode))
    (s : String) (h2 : 2 ≤ N) (hflat : flatLit kids) (hlit : isLit s = true)
    (hfresh : lookupChild s kids = none) (hlen : kids.length + 1 ≤ N) :
    (analyzePathSegs (primedState N id (.mk 0 none kids)) [s] id).snd =
      primedState N id (.mk 0 none (kids ++ [(s, .mk 1 none [])])) := by
  have hflat1 := flatLit_append kids s hflat hlit
  have hadd : addPathToRoot (cfgTrieRoot N) ⟨"/", N⟩ (.mk 0 none kids) [s] =
      .mk 0 none (kids ++ [(s, .mk 1 none [])]) := by
    simp only [addPathToRoot, TrieNode.children, TrieNode.withCount, TrieNode.count,
      TrieNode.cfg, TrieNode.withChildren, NewTrieNode, flatLit_no_star hflat,
      flatLit_no_dyn hflat]
    rw [if_neg (isLit_ne_dyn hlit)]
    simp only [hfresh, Option.getD_none]
    rw [setChild_append_of_absent _ _ _ hfresh]
    rw [if_neg (by rintro ⟨hh, -⟩; omega)]
    rw [if_neg (by rintro ⟨hh, -⟩; simp [List.length_append] at hh; omega)]
    rw [flatLit_no_dyn hflat1]
    rw [lookupChild_append_left _ _ _ hfresh, lookupChild_head]
    simp only [addPathToRoot]
    rw [setChild_of_lookup_self _ _ _
      (by rw [lookupChild_append_left _ _ _ hfresh, lookupChild_head])]
  simp only [analyzePathSegs]
  rw [if_neg (by simp)]
  simp only [primedState, lookupChild_head, Option.getD_some, cfgTrieRoot_cfg]
  rw [hadd, setChild_head]

theorem insert_state_collapse (N : Nat) (id : String) (kids : List (String × TrieNode))
    (s : String) (h2 : 2 ≤ N) (hflat : flatLit kids) (hlit : isLit s = true)
    (hfresh : lookupChild s kids = none) (hlen : N < kids.length + 1) :
    ∃ m, (analyzePathSegs (primedState N id (.mk 0 none kids)) [s] id).snd =
      primedState N id (.mk 0 none [(DynamicIdentifier, .mk m none [])]) := by
  have hflat1 := flatLit_append kids s hflat hlit
  have hleaves : ∀ kv ∈ kids ++ [(s, (.mk 1 none [] : TrieNode))], kv.2.children = [] :=
    fun kv hm => (hflat1 kv hm).2
  obtain ⟨m, hm⟩ := mergeAllChildren_flat _ hleaves
  refine ⟨m, ?_⟩
  have hadd : addPathToRoot (cfgTrieRoot N) ⟨"/", N⟩ (.mk 0 none kids) [s] =
      .mk 0 none [(DynamicIdentifier, .mk m none [])] := by
    simp only [addPathToRoot, TrieNode.children, TrieNode.withCount, TrieNode.count,
      TrieNode.cfg, TrieNode.withChildren, NewTrieNode, flatLit_no_star hflat,
      flatLit_no_dyn hflat]
    rw [if_neg (isLit_ne_dyn hlit)]
    simp only [hfresh, Option.getD_none]
    rw [setChild_append_of_absent _ _ _ hfresh]
    rw [if_neg (by rintro ⟨hh, -⟩; omega)]
    rw [if_pos ⟨by simp only [List.length_append, List.length_singleton]; omega,
      by rw [flatLit_no_dyn hflat1]; rfl⟩]
    simp only [createDynamicNode, TrieNode.withChildren, TrieNode.children, hm]
    rw [lookupChild_head]
    simp only [addPathToRoot]
    rw [setChild_head]
  simp only [analyzePathSegs]
  rw [if_neg (by simp)]
  simp only [primedState, lookupChild_head, Option.getD_some, cfgTrieRoot_cfg]
  rw [hadd, setChild_head]



theorem prime_fold (N : Nat) (id : String) (h2 : 2 ≤ N) (segs : List String) :
    ∀ kids : List (String × TrieNode), flatLit kids → (∀ s ∈ segs, isLit s = true) →
    segs.Nodup → (∀ s ∈ segs, lookupChild s kids = none) →
    kids.length + segs.length ≤ N →
    segs.foldl (fun st s => (analyzePathSegs st [s] id).snd)
        (primedState N id (.mk 0 none kids)) =
      primedState N id (.mk 0 none (kids ++ segs.map (fun s => (s, .mk 1 none [])))) := by
  induction segs with
  | nil => intro kids _ _ _ _ _; simp
  | cons s rest ih =>
    intro kids hflat hlit hnd hfr hlen
    have hs : isLit s = true := hlit s (List.mem_cons_self _ _)
    have hfs : lookupChild s kids = none := hfr s (List.mem_cons_self _ _)
    simp only [List.foldl]
    rw [insert_state_fresh N id kids s h2 hflat hs hfs
      (by simp only [List.length_cons] at hlen; omega)]
    have hfr2 : ∀ t ∈ rest, lookupChild t (kids ++ [(s, TrieNode.mk 1 none [])]) = none := by
      intro t ht
      rw [lookupChild_append_left t kids [(s, TrieNode.mk 1 none [])]
        (hfr t (List.mem_cons_of_mem _ ht))]
      simp only [lookupChild]
      rw [if_neg (fun hh => (List.nodup_cons.mp hnd).1 (by rw [hh]; exact ht))]
    have hlen2 : (kids ++ [(s, TrieNode.mk 1 none [])]).length + rest.length ≤ N := by
      simp only [List.length_append, List.length_singleton, List.length_cons,
        List.length_nil] at hlen ⊢
      omega
    rw [show kids ++ List.map (fun s => (s, TrieNode.mk 1 none [])) (s :: rest) =
        (kids ++ [(s, TrieNode.mk 1 none [])]) ++
          List.map (fun s => (s, TrieNode.mk 1 none [])) rest by simp]
    exact ih (kids ++ [(s, TrieNode.mk 1 none [])]) (flatLit_append kids s hflat hs)
      (fun t ht => hlit t (List.mem_cons_of_mem _ ht))
      (List.Nodup.of_cons hnd) hfr2 hlen2

theorem fresh_start_eq (N : Nat) (id s : String) :
    analyzePathSegs (NewPathAnalyzer N) [s] id =
      analyzePathSegs (primedState N id (.mk 0 none [])) [s] id := by
  simp [analyzePathSegs, newPathAnalyzer_eq, primedState, lookupChild, setChild,
    NewTrieNode, lookupChild_head]

theorem fold_paths_eq (id : String) :
    ∀ (ps segs : List String), ps.map splitPath = segs.map (fun s => [s]) →
    ∀ st : PathAnalyzer,
      ps.foldl (fun st2 p => (AnalyzePath st2 p id).snd) st =
        segs.foldl (fun st2 s => (analyzePathSegs st2 [s] id).snd) st := by
  intro ps
  induction ps with
  | nil =>
    intro segs hmap st
    cases segs with
    | nil => rfl
    | cons s rest => cases hmap
  | cons p ps' ih =>
    intro segs hmap st
    cases segs with
    | nil => cases hmap
    | cons s rest =>
      simp only [List.map, List.cons.injEq] at hmap
      simp only [List.foldl]
      rw [show (AnalyzePath st p id).snd = (analyzePathSegs st [s] id).snd by
        rw [AnalyzePath, hmap.1]]
      exact ih rest hmap.2 _



theorem flatLit_map (segs : List String) (hlit : ∀ s ∈ segs, isLit s = true) :
    flatLit (segs.map (fun s => (s, .mk 1 none []))) := by
  intro kv hm
  rcases List.mem_map.mp hm with ⟨s, hsl, rfl⟩
  exact ⟨hlit s hsl, rfl⟩

/-- C3 (amended): for every default threshold `N ≥ 2`, priming a fresh
`NewPathAnalyzer N` with exactly `N` distinct literal single-segment paths
creates no `⋯` child at the root of the identifier trie, and each of the `N`
paths still reads back literally from `AnalyzePath`; inserting an `(N+1)`-th
distinct literal then creates a `⋯` child, and every previously inserted
sibling path subsequently reads back as `/⋯`.  (At threshold `N = 1` the
original claim fails — the immediate wildcard fires; see the
counterexample.) -/
theorem c3_threshold_boundary (N : Nat) (h2 : 2 ≤ N) (id : String)
    (ps segs : List String) (hps : ps.map splitPath = segs.map (fun s => [s]))
    (hlen : segs.length = N) (hnd : segs.Nodup) (hlit : ∀ s ∈ segs, isLit s = true)
    (s' p' : String) (hp' : splitPath p' = [s']) (hlit' : isLit s' = true)
    (hfresh : s' ∉ segs) :
    (lookupChild DynamicIdentifier
      (identRootOf (ps.foldl (fun st q => (AnalyzePath st q id).snd) (NewPathAnalyzer N)) id).children
        = none) ∧
    (∀ s ∈ segs, ∀ q : String, splitPath q = [s] →
      (AnalyzePath (ps.foldl (fun st q2 => (AnalyzePath st q2 id).snd) (NewPathAnalyzer N)) q id).fst
        = "/" ++ s) ∧
    (lookupChild DynamicIdentifier
      (identRootOf
        (AnalyzePath (ps.foldl (fun st q2 => (AnalyzePath st q2 id).snd) (NewPathAnalyzer N)) p' id).snd
        id).children ≠ none) ∧
    (∀ s ∈ segs, ∀ q : String, splitPath q = [s] →
      (AnalyzePath
        (AnalyzePath (ps.foldl (fun st q2 => (AnalyzePath st q2 id).snd) (NewPathAnalyzer N)) p' id).snd
        q id).fst = "/" ++ DynamicIdentifier) := by
  have hflatN := flatLit_map segs hlit
  have hfold : ps.foldl (fun st q => (AnalyzePath st q id).snd) (NewPathAnalyzer N) =
      primedState N id (.mk 0 none (segs.map (fun s => (s, .mk 1 none [])))) := by
    rw [fold_paths_eq id ps segs hps]
    cases hsegs : segs with
    | nil => rw [hsegs] at hlen; simp at hlen; omega
    | cons s0 rest =>
      have hprime := prime_fold N id h2 (s0 :: rest) [] (fun kv hm => by cases hm)
        (by rw [hsegs] at hlit; exact hlit)
        (by rw [hsegs] at hnd; exact hnd)
        (fun t ht => rfl)
        (by rw [hsegs] at hlen; simp [hlen])
      simp only [List.foldl] at hprime ⊢
      rw [congrArg Prod.snd (fresh_start_eq N id s0), hprime]
      simp [hsegs]
  have hfreshN : lookupChild s' (segs.map (fun s => (s, TrieNode.mk 1 none []))) = none := by
    apply lookupChild_of_forall_ne
    intro kv hm
    rcases List.mem_map.mp hm with ⟨s, hsl, rfl⟩
    exact fun hh => hfresh (hh ▸ hsl)
  obtain ⟨m, hcoll⟩ := insert_state_collapse N id
    (segs.map (fun s => (s, .mk 1 none []))) s' h2 hflatN hlit' hfreshN
    (by simp [hlen])
  refine ⟨?_, ?_, ?_, ?_⟩
  · rw [hfold]
    simp only [identRootOf, primedState, lookupChild_head, Option.getD_some]
    exact flatLit_no_dyn hflatN
  · intro s hsl q hq
    rw [AnalyzePath, hq, hfold]
    exact out_single N id 0 _ hflatN s (validSeg_no_slash (isLit_valid (hlit s hsl)))
  · rw [AnalyzePath, hp', hfold, hcoll]
    simp only [identRootOf, primedState, lookupChild_head, Option.getD_some,
      TrieNode.children]
    simp [lookupChild]
  · intro s hsl q hq
    rw [AnalyzePath, hq, AnalyzePath, hp', hfold, hcoll]
    exact out_dyn N id 0 m s

/-- C3 witness: the amended theorem at `N = 2`, priming `/a` and `/b`, then
inserting `/c`. -/
theorem c3_threshold_boundary_witness :
    (lookupChild DynamicIdentifier
      (identRootOf (["/a", "/b"].foldl (fun st q => (AnalyzePath st q "opens").snd)
        (NewPathAnalyzer 2)) "opens").children = none) ∧
    (AnalyzePath (["/a", "/b"].foldl (fun st q2 => (AnalyzePath st q2 "opens").snd)
        (NewPathAnalyzer 2)) "/a" "opens").fst = "/" ++ "a" ∧
    (lookupChild DynamicIdentifier
      (identRootOf
        (AnalyzePath (["/a", "/b"].foldl (fun st q2 => (AnalyzePath st q2 "opens").snd)
          (NewPathAnalyzer 2)) "/c" "opens").snd
        "opens").children ≠ none) ∧
    (AnalyzePath
        (AnalyzePath (["/a", "/b"].foldl (fun st q2 => (AnalyzePath st q2 "opens").snd)
          (NewPathAnalyzer 2)) "/c" "opens").snd
        "/a" "opens").fst = "/" ++ DynamicIdentifier := by
  have h := c3_threshold_boundary 2 (by omega) "opens" ["/a", "/b"] ["a", "b"]
    (by decide) (by decide) (by decide) (by decide) "c" "/c" (by decide) (by decide)
    (by decide)
  exact ⟨h.1, h.2.1 "a" (by decide) "/a" (by decide), h.2.2.1,
    h.2.2.2 "a" (by decide) "/a" (by decide)⟩

theorem cfg_step_ok (N : Nat) (n : TrieNode) (c : CollapseConfig)
    (s : String) (hok : CfgNodeOk N n) (hc : 2 ≤ c.threshold) (hs : s ≠ "app") :
    CfgNodeOk N (cfgStep n c s).1 ∧ 2 ≤ (cfgStep n c s).2.threshold := by
  rcases hok with rfl | rfl | rfl | rfl | rfl
  · simp only [cfgStep, cfgTrieRoot, TrieNode.children, lookupChild]
    by_cases h1 : "etc" = s
    · simp only [if_pos h1]
      exact ⟨Or.inr (Or.inl rfl), by simp [TrieNode.cfg]⟩
    · rw [if_neg h1]
      by_cases h2o : "opt" = s
      · simp only [if_pos h2o]
        exact ⟨Or.inr (Or.inr (Or.inl rfl)), by simp [TrieNode.cfg]⟩
      · rw [if_neg h2o]
        by_cases h3 : "var" = s
        · simp only [if_pos h3]
          refine ⟨Or.inr (Or.inr (Or.inr (Or.inl rfl))), ?_⟩
          simp only [TrieNode.cfg, Option.getD_none]
          exact hc
        · rw [if_neg h3]
          rw [if_neg (fun hh => hs hh.symm)]
          exact ⟨Or.inl rfl, hc⟩
  · simp only [cfgStep, TrieNode.children, lookupChild]
    exact ⟨Or.inr (Or.inl rfl), hc⟩
  · simp only [cfgStep, TrieNode.children, lookupChild]
    exact ⟨Or.inr (Or.inr (Or.inl rfl)), hc⟩
  · simp only [cfgStep, TrieNode.children, lookupChild]
    by_cases h1 : "run" = s
    · simp only [if_pos h1]
      exact ⟨Or.inr (Or.inr (Or.inr (Or.inr rfl))), by simp [TrieNode.cfg]⟩
    · rw [if_neg h1]
      exact ⟨Or.inr (Or.inr (Or.inr (Or.inl rfl))), hc⟩
  · simp only [cfgStep, TrieNode.children, lookupChild]
    exact ⟨Or.inr (Or.inr (Or.inr (Or.inr rfl))), hc⟩

theorem cfgSafe_of_appFree (N : Nat) (segs : List String) :
    ∀ (n : TrieNode) (c : CollapseConfig), CfgNodeOk N n → 2 ≤ c.threshold →
    (∀ s ∈ segs, s ≠ "app") → CfgSafe n c segs := by
  induction segs with
  | nil => intro n c _ _ _; trivial
  | cons s rest ih =>
    intro n c hok hc happ
    obtain ⟨hok2, hc2⟩ := cfg_step_ok N n c s hok hc (happ s (List.mem_cons_self _ _))
    exact ⟨hc, ih _ _ hok2 hc2 (fun t ht => happ t (List.mem_cons_of_mem _ ht))⟩

theorem addPath_chain (segs : List String) :
    ∀ (n : TrieNode) (c : CollapseConfig) (cnt : Nat) (cf : Option CollapseConfig),
    CfgSafe n c segs →
    addPathToRoot n c (.mk cnt cf []) segs = .mk cnt cf (chainKids segs) := by
  induction segs with
  | nil => intro n c cnt cf _; rfl
  | cons s rest ih =>
    intro n c cnt cf hsafe
    obtain ⟨hc, hsafe2⟩ := hsafe
    by_cases hdyn : s = DynamicIdentifier
    · subst hdyn
      have hrec := ih (cfgStep n c DynamicIdentifier).1 (cfgStep n c DynamicIdentifier).2
        1 none hsafe2
      simp only [addPathToRoot, TrieNode.children, lookupChild, if_pos rfl,
        eq_self_iff_true, if_true, NewTrieNode, TrieNode.withCount, TrieNode.count,
        TrieNode.cfg, TrieNode.withChildren, mergeAllChildren, List.foldl]
      rw [hrec]
      rfl
    · have hrec := ih (cfgStep n c s).1 (cfgStep n c s).2 1 none hsafe2
      simp only [addPathToRoot, TrieNode.children, lookupChild]
      rw [if_neg hdyn]
      simp only [Option.getD_none, NewTrieNode, TrieNode.withCount, TrieNode.count,
        TrieNode.cfg, TrieNode.withChildren, setChild]
      rw [if_neg (by rintro ⟨hh, -⟩; omega)]
      rw [if_neg (by rintro ⟨hh, -⟩; simp at hh; omega)]
      simp only [lookupChild]
      rw [if_neg hdyn]
      simp only [eq_self_iff_true, if_true, TrieNode.children, Nat.zero_add]
      rw [hrec]
      simp only [setChild, eq_self_iff_true, if_true, chainKids]

theorem starOnlyLast_tail {s : String} {rest : List String}
    (h : starOnlyLast (s :: rest) = true) : starOnlyLast rest = true := by
  cases rest with
  | nil => rfl
  | cons t r2 =>
    simp only [starOnlyLast, Bool.and_eq_true] at h
    exact h.2

theorem readSegs_chain (segs : List String) :
    ∀ (c : Nat) (cf : Option CollapseConfig), starOnlyLast segs = true →
    readSegs (.mk c cf (chainKids segs)) segs = segs := by
  induction segs with
  | nil => intro c cf _; rfl
  | cons s rest ih =>
    intro c cf hstar
    by_cases hw : s = WildcardIdentifier
    · subst hw
      have hrest : rest = [] := by
        cases rest with
        | nil => rfl
        | cons t r2 =>
          simp only [starOnlyLast, Bool.and_eq_true, decide_eq_true_eq] at hstar
          exact absurd rfl hstar.1
      subst hrest
      simp only [readSegs, TrieNode.children, chainKids, lookupChild,
        eq_self_iff_true, if_true]
    · simp only [readSegs, TrieNode.children, chainKids, lookupChild]
      rw [if_neg hw]
      by_cases hdyn : s = DynamicIdentifier
      · subst hdyn
        simp only [eq_self_iff_true, if_true]
        rw [ih 1 none (starOnlyLast_tail hstar)]
      · rw [if_neg hdyn]
        simp only [eq_self_iff_true, if_true]
        rw [ih 1 none (starOnlyLast_tail hstar)]

theorem noAdj_cons {s : String} {rest : List String}
    (h : noAdjacentDyn (s :: rest) = true) :
    noAdjacentDyn rest = true ∧
      ¬(s = DynamicIdentifier ∧ rest.head? = some DynamicIdentifier) := by
  cases rest with
  | nil => exact ⟨rfl, by rintro ⟨-, hh⟩; cases hh⟩
  | cons t r2 =>
    simp only [noAdjacentDyn, Bool.and_eq_true] at h
    refine ⟨h.2, ?_⟩
    rintro ⟨h1, h2⟩
    simp only [List.head?_cons, Option.some.injEq] at h2
    rw [h1, h2] at h
    simp at h

theorem collapseAux_fix (l : List String) (h : noAdjacentDyn l = true) :
    collapseAux false l = l := by
  induction l with
  | nil => rfl
  | cons s rest ih =>
    obtain ⟨h1, h2⟩ := noAdj_cons h
    simp only [collapseAux]
    rw [if_neg h2]
    rw [ih h1]



theorem validSeg_ne_empty {s : String} (h : validSeg s = true) : s ≠ "" := by
  simp only [validSeg, Bool.and_eq_true, decide_eq_true_eq] at h
  exact h.1

theorem filter_ne_empty (segs : List String) (hval : ∀ s ∈ segs, validSeg s = true) :
    segs.filter (fun s => s ≠ "") = segs := by
  induction segs with
  | nil => rfl
  | cons s rest ih =>
    rw [List.filter_cons]
    rw [if_pos (by simpa using validSeg_ne_empty (hval s (List.mem_cons_self _ _)))]
    rw [ih (fun t ht => hval t (List.mem_cons_of_mem _ ht))]

/-- C7 (amended): a fresh `NewPathAnalyzer N` with `N ≥ 2`, primed with a
single generalized path P — canonical absolute, non-empty slash-free
segments, no two adjacent `⋯` segments, `*` at most as the final segment,
and no segment equal to `app` (the threshold-1 prefix) — returns P unchanged
from a second `AnalyzePath` call.  Without the `*`-position and `app`
restrictions idempotence fails (see the counterexample). -/
theorem c7_generalization_idempotent (N : Nat) (h2 : 2 ≤ N) (id p : String)
    (segs : List String) (hsplit : splitAll p = "" :: segs) (hne : segs ≠ [])
    (hval : ∀ s ∈ segs, validSeg s = true) (hadj : noAdjacentDyn segs = true)
    (hstar : starOnlyLast segs = true) (happ : "app" ∉ segs) :
    (AnalyzePath (AnalyzePath (NewPathAnalyzer N) p id).snd p id).fst = p := by
  have hp : p = joinSegs ("" :: segs) := by rw [← joinSegs_splitAll p, hsplit]
  have hsp : splitPath p = segs := by
    rw [splitPath, hsplit, List.filter_cons]
    rw [if_neg (by simp)]
    exact filter_ne_empty segs hval
  have hsafe : CfgSafe (cfgTrieRoot N) ⟨"/", N⟩ segs :=
    cfgSafe_of_appFree N segs _ _ (Or.inl rfl) (by simpa using h2)
      (fun s hs hh => happ (hh ▸ hs))
  have hstate : (AnalyzePath (NewPathAnalyzer N) p id).snd =
      primedState N id (.mk 0 none (chainKids segs)) := by
    rw [AnalyzePath, hsp]
    simp only [analyzePathSegs]
    rw [if_neg hne]
    rw [newPathAnalyzer_eq]
    simp only [lookupChild, Option.getD, cfgTrieRoot_cfg, setChild]
    rw [show (NewTrieNode : TrieNode) = .mk 0 none [] from rfl]
    rw [addPath_chain segs _ _ 0 none hsafe]
    rfl
  have hnocut : ∀ t ∈ ("" :: segs), '/' ∉ t.data := by
    intro t ht
    rcases List.mem_cons.mp ht with rfl | ht2
    · simp
    · exact validSeg_no_slash (hval t ht2)
  have hadj2 : noAdjacentDyn ("" :: segs) = true := by
    cases segs with
    | nil => rfl
    | cons t r =>
      simp only [noAdjacentDyn, Bool.and_eq_true]
      refine ⟨?_, by simpa [noAdjacentDyn] using hadj⟩
      rw [show (("" : String) == DynamicIdentifier) = false from by decide]
      rfl
  rw [hstate, AnalyzePath, hsp]
  simp only [analyzePathSegs]
  rw [if_neg hne]
  simp only [primedState, lookupChild_head, Option.getD_some]
  rw [readSegs_chain segs 0 none hstar]
  rw [CollapseAdjacentDynamicIdentifiers, splitAll_joinSegs ("" :: segs) (by simp) hnocut]
  rw [show collapseAdjacentSegs ("" :: segs) = collapseAux false ("" :: segs) from rfl]
  rw [collapseAux_fix ("" :: segs) hadj2]
  exact hp.symm

/-- C7 witness: the amended theorem at `N = 50` on the generalized path
`/x/⋯/y/*`. -/
theorem c7_generalization_idempotent_witness :
    (AnalyzePath (AnalyzePath (NewPathAnalyzer 50) ("/x/" ++ DynamicIdentifier ++ "/y/" ++ WildcardIdentifier) "opens").snd
      ("/x/" ++ DynamicIdentifier ++ "/y/" ++ WildcardIdentifier) "opens").fst =
      "/x/" ++ DynamicIdentifier ++ "/y/" ++ WildcardIdentifier :=
  c7_generalization_idempotent 50 (by omega) "opens"
    ("/x/" ++ DynamicIdentifier ++ "/y/" ++ WildcardIdentifier)
    ["x", DynamicIdentifier, "y", WildcardIdentifier]
    (by decide) (by decide) (by decide) (by decide) (by decide) (by decide)

end DynamicPathDetector
